import Mathlib

/-!
Verification of the dependency-ordered environment-switching engine of
`gzh-cli-dev-env` (`pkg/environment`): the dependency resolver
(`dependency.go`), the hook-command gate and the switch orchestrator
(`switcher.go`), against the repository specification.

Conventions of the shallow embedding:
* Go `map[string]T` values are embedded as association lists
  `List (String × T)`; iteration order of a Go map is unspecified, so every
  proved fact below is independent of the chosen list order.  The resolver
  only ever uses the key set of `dr.services`, embedded as `List String`.
* Go byte strings are embedded as `String` / `List Char`.  Every byte the
  resolver and the hook gate compare against (`' '`, `'-'`, `'>'`, the
  denylist patterns, the safe-character class) is ASCII, and an ASCII byte
  never occurs inside a multi-byte UTF-8 sequence, so byte-wise scanning
  coincides with `Char`-wise scanning.
* Fallible Go functions returning `(T, error)` are embedded as
  `Except String T`; functions returning a bare `error` become
  `Option String` (`none` = nil error).
* The unbounded Go loops (`for len(remaining) > 0`, the DFS recursion) are
  embedded with an explicit fuel argument; fuel is chosen at the call site
  so that the exhaustion branch is unreachable (each iteration strictly
  shrinks the measure), which the lemmas below establish.
* Wall-clock instants and durations are embedded as exact rationals `ℚ`:
  the caller-visible start time and the elapsed time observed after each
  level are parameters (`startTime`, `clock`).
-/

namespace GzhEnv

/-! ## Data model (`types.go`) -/

structure AWSConfig where
  Profile : String
  Region : String
  AccountID : String
deriving DecidableEq

structure GCPConfig where
  Project : String
  Account : String
  Region : String
deriving DecidableEq

structure AzureConfig where
  Subscription : String
  Tenant : String
deriving DecidableEq

structure DockerConfig where
  Context : String
deriving DecidableEq

structure KubernetesConfig where
  Context : String
  Namespace : String
deriving DecidableEq

structure SSHConfig where
  Config : String
deriving DecidableEq

/-- `ServiceConfig` from `types.go`: six optional per-service variants
(`*AWSConfig` etc.; a nil pointer is `none`). -/
structure ServiceConfig where
  AWS : Option AWSConfig := none
  GCP : Option GCPConfig := none
  Azure : Option AzureConfig := none
  Docker : Option DockerConfig := none
  Kubernetes : Option KubernetesConfig := none
  SSH : Option SSHConfig := none
deriving DecidableEq

/-- `Hook` from `types.go`.  The timeout (a duration) is kept as `ℚ`
nanoseconds; it only parameterizes real execution, never control flow that
we reason about. -/
structure Hook where
  Command : String
  Timeout : ℚ := 0
  OnError : String := ""
deriving DecidableEq

/-- `Environment` from `types.go`; the `Services` map becomes an
association list. -/
structure Environment where
  Name : String
  Description : String := ""
  Services : List (String × ServiceConfig)
  Dependencies : List String := []
  PreHooks : List Hook := []
  PostHooks : List Hook := []
deriving DecidableEq

/-- `ServiceGroup` from `types.go`: one execution level. -/
structure ServiceGroup where
  Services : List String
  Level : Nat
deriving DecidableEq

/-- `SwitchError` from `types.go`. -/
structure SwitchError where
  Service : String
  Error : String
  Time : ℚ
deriving DecidableEq

/-- `SwitchResult` from `types.go`. -/
structure SwitchResult where
  Success : Bool
  SwitchedServices : List String
  FailedServices : List String
  RollbackPerformed : Bool := false
  Duration : ℚ := 0
  Errors : List SwitchError
deriving DecidableEq

/-- `SwitchProgress` from `types.go`. -/
structure SwitchProgress where
  TotalServices : Nat
  CompletedServices : Nat
  CurrentService : String := ""
  Status : String
  StartTime : ℚ
  EstimatedEnd : ℚ
  Errors : List SwitchError := []
deriving DecidableEq

/-- `SwitchOptions` from `types.go`. -/
structure SwitchOptions where
  DryRun : Bool := false
  Force : Bool := false
  Parallel : Bool := false
  RollbackOnError : Bool := false
  Timeout : ℚ := 0
deriving DecidableEq

/-! ## Environment validation (`environment.go`) -/

/-- The dependency-checking loop inside `Environment.Validate`: first empty
dependency string is an error. -/
def validateDeps : List String → Option String
  | [] => none
  | dep :: rest =>
      if dep = "" then some "empty dependency string found" else validateDeps rest

/-- `Environment.Validate` from `environment.go`. -/
def Environment.Validate (e : Environment) : Option String :=
  if e.Name = "" then some "environment name is required"
  else if e.Services.length = 0 then some "at least one service must be configured"
  else validateDeps e.Dependencies

/-! ## Dependency parsing (`dependency.go`: `parseDependency`, `trim`) -/

/-- The whitespace set of `trim` in `dependency.go`: space, tab, newline. -/
def isTrimSpace (c : Char) : Bool :=
  c = ' ' || c = '\t' || c = '\n'

/-- `trim` from `dependency.go`: strip leading and trailing
space/tab/newline. -/
def trim (s : List Char) : List Char :=
  ((s.dropWhile isTrimSpace).reverse.dropWhile isTrimSpace).reverse

/-- The scanning loop of `parseDependency`.  The Go loop has two modes that
the `skipping` flag captures: after matching the separator `" ->"` it first
consumes the run of following spaces (`skipping = true`), then resumes
normal scanning.  When the skip loop stops the head character is not a
space, so the separator test (whose first byte is a space) cannot match and
the head is consumed into `current`, exactly as in the Go loop.  The
separator test `dep[i:i+3] == " ->"` is guarded by `i+3 < len(dep)`, i.e.
it only fires when at least one byte follows the arrow, hence the four-cons
pattern. -/
def parseDependencyAux : Bool → List Char → List Char → List String → List String
  | _, [], current, parts =>
      if current.isEmpty then parts else parts ++ [String.mk (trim current)]
  | true, c :: rest, current, parts =>
      if c = ' ' then parseDependencyAux true rest current parts
      else parseDependencyAux false rest (current ++ [c]) parts
  | false, ' ' :: '-' :: '>' :: c :: rest, current, parts =>
      parseDependencyAux true (c :: rest) []
        (if current.isEmpty then parts else parts ++ [String.mk (trim current)])
  | false, ch :: rest, current, parts =>
      parseDependencyAux false rest (current ++ [ch]) parts

/-- `parseDependency` from `dependency.go`. -/
def parseDependency (dep : String) : List String :=
  parseDependencyAux false dep.data [] []

/-! ## Graph construction (`ResolveDependencies`, first phase) -/

/-- The parse-and-validate loop of `ResolveDependencies`: each dependency
string must split into exactly two parts, and both endpoints must be known
services; the first violation aborts with its error.  The edge list is
returned in input order (the order of the Go `graph[from] = append(...)` /
`inDegree[to]++` updates). -/
def buildEdges (services : List String) : List String → Except String (List (String × String))
  | [] => .ok []
  | dep :: rest =>
      match parseDependency dep with
      | [f, t] =>
          if f ∈ services then
            if t ∈ services then
              match buildEdges services rest with
              | .ok es => .ok ((f, t) :: es)
              | .error e => .error e
            else .error ("dependency target service \x27" ++ t ++ "\x27 not found")
          else .error ("dependency source service \x27" ++ f ++ "\x27 not found")
      | _ =>
          .error ("invalid dependency format: " ++ dep ++
            " (expected format: \x27service1 -> service2\x27)")

/-- The edge list that `buildEdges` produces when it succeeds: the parsed
`(from, to)` pair of each dependency string. -/
def depEdges (deps : List String) : List (String × String) :=
  deps.filterMap (fun dep =>
    match parseDependency dep with
    | [f, t] => some (f, t)
    | _ => none)

/-- Adjacency lookup of the Go `graph` map: the targets of all edges with
the given source, in insertion order.  (`graph` only has keys for known
services, but a missing Go map key reads as nil, and validated edges only
mention known services, so a plain function is an exact embedding.) -/
def graphOf (edges : List (String × String)) (s : String) : List String :=
  (edges.filter (fun e => e.1 = s)).map (·.2)

/-- The Go `inDegree` map: how many edges enter `s`. -/
def inDegreeOf (edges : List (String × String)) (s : String) : Nat :=
  (edges.filter (fun e => e.2 = s)).length

/-- Directed-edge relation of the built graph. -/
def EdgeRel (edges : List (String × String)) (a b : String) : Prop :=
  (a, b) ∈ edges

/-- The graph has no directed cycle (also excludes self-loops). -/
def Acyclic (edges : List (String × String)) : Prop :=
  ∀ x, ¬ Relation.TransGen (EdgeRel edges) x x

/-! ## Cycle detection (`detectCycles`, `dfsVisit`) -/

/-- The three colour maps of `detectCycles`.  Go reads a missing key as
`false`, so total boolean functions are an exact embedding. -/
structure DfsState where
  white : String → Bool
  gray : String → Bool
  black : String → Bool

/-- Point update of a colour map (`m[s] = b`). -/
def setFlag (f : String → Bool) (s : String) (b : Bool) : String → Bool :=
  fun t => if t = s then b else f t

/-- The neighbour loop inside `dfsVisit`: a gray neighbour is a cycle, a
white neighbour is visited recursively (through the supplied `visit`
callback, which the caller instantiates with `dfsVisit` at one fuel less),
any other neighbour is skipped. -/
def dfsNeighbors (visit : String → DfsState → Except String DfsState)
    (service : String) : List String → DfsState → Except String DfsState
  | [], st => .ok st
  | n :: rest, st =>
      if st.gray n then
        .error ("circular dependency detected involving services: " ++ service ++ " -> " ++ n)
      else if st.white n then
        match visit n st with
        | .error e => .error e
        | .ok st2 => dfsNeighbors visit service rest st2
      else dfsNeighbors visit service rest st

/-- `dfsVisit` from `dependency.go`.  The Go recursion terminates because
every recursive call is on a node that was white and is immediately
recoloured; the fuel argument makes that measure explicit, and the callers
below always supply enough fuel for the exhaustion branch to be dead. -/
def dfsVisit (graph : String → List String) : Nat → String → DfsState → Except String DfsState
  | 0, _, _ => .error "dfs fuel exhausted"
  | fuel + 1, service, st =>
      let st1 : DfsState :=
        { st with white := setFlag st.white service false,
                  gray := setFlag st.gray service true }
      match dfsNeighbors (dfsVisit graph fuel) service (graph service) st1 with
      | .error e => .error e
      | .ok st2 =>
          .ok { st2 with gray := setFlag st2.gray service false,
                         black := setFlag st2.black service true }

/-- The outer loop of `detectCycles`: DFS from every still-white service. -/
def detectCyclesLoop (graph : String → List String) (fuel : Nat) :
    List String → DfsState → Except String Unit
  | [], _ => .ok ()
  | s :: rest, st =>
      if st.white s then
        match dfsVisit graph fuel s st with
        | .error e => .error e
        | .ok st2 => detectCyclesLoop graph fuel rest st2
      else detectCyclesLoop graph fuel rest st

/-- Initial colouring of `detectCycles`: every known service white. -/
def initialDfsState (services : List String) : DfsState :=
  { white := fun s => decide (s ∈ services), gray := fun _ => false, black := fun _ => false }

/-- `detectCycles` from `dependency.go`. -/
def detectCycles (services : List String) (edges : List (String × String)) :
    Except String Unit :=
  detectCyclesLoop (graphOf edges) (services.length + 1) services (initialDfsState services)

/-! ## Level-wise topological sort (`topologicalSort`) -/

/-- Equality of `Except` values is decidable componentwise (used to state
concrete evaluations of the resolver). -/
instance {ε α : Type} [DecidableEq ε] [DecidableEq α] : DecidableEq (Except ε α) :=
  fun a b =>
    match a, b with
    | .ok x, .ok y =>
        if h : x = y then .isTrue (by rw [h]) else .isFalse (by simp [h])
    | .error e, .error f =>
        if h : e = f then .isTrue (by rw [h]) else .isFalse (by simp [h])
    | .ok _, .error _ => .isFalse (by simp)
    | .error _, .ok _ => .isFalse (by simp)

/-- The inner decrement loop: for every dependent of a removed service,
decrement its remaining in-degree.  (Go guards the decrement with a key
existence test; updating by mapping over the present entries is the same
operation.)  Degrees are `Int` exactly as Go `int`. -/
def decrementDependents (deps : List String) (rem : List (String × Int)) :
    List (String × Int) :=
  deps.foldl (fun r d => r.map (fun p => if p.1 = d then (p.1, p.2 - 1) else p)) rem

/-- Removal of one completed level: delete each of its services from
`remaining`, and after each deletion decrement the in-degrees of that
service's dependents, exactly in the order of the Go loop. -/
def removeLevel (edges : List (String × String)) (currentLevel : List String)
    (rem : List (String × Int)) : List (String × Int) :=
  currentLevel.foldl
    (fun r service =>
      decrementDependents (graphOf edges service) (r.filter (fun p => ¬ p.1 = service)))
    rem

/-- One round of the `for len(remaining) > 0` loop of `topologicalSort`,
with fuel (each successful round removes at least one service, so fuel
equal to the initial number of services suffices; the exhaustion branch is
dead, see the lemmas).  `sort.Strings` sorts ascending by bytes, which for
valid UTF-8 is the codepoint order of Lean `String` `≤`; a sorted
permutation under a linear order is unique, so any comparison sort is an
exact embedding of the sorted level. -/
def topologicalSortLoop (edges : List (String × String)) :
    Nat → List (String × Int) → Nat → List ServiceGroup → Except String (List ServiceGroup)
  | _, [], _, groups => .ok groups
  | 0, _ :: _, _, _ => .error "topological sort fuel exhausted"
  | fuel + 1, p :: rem, level, groups =>
      let currentLevel :=
        List.insertionSort (fun a b : String => a.data ≤ b.data)
          (((p :: rem).filter (fun q => q.2 = 0)).map (·.1))
      if currentLevel.isEmpty then
        .error "circular dependency detected - no services with zero in-degree"
      else
        topologicalSortLoop edges fuel (removeLevel edges currentLevel (p :: rem)) (level + 1)
          (groups ++ [⟨currentLevel, level⟩])

/-- The initial `remaining` map: every known service with its in-degree. -/
def initRemaining (services : List String) (edges : List (String × String)) :
    List (String × Int) :=
  services.map (fun s => (s, (inDegreeOf edges s : Int)))

/-- `topologicalSort` from `dependency.go`. -/
def topologicalSort (edges : List (String × String)) (remaining : List (String × Int)) :
    Except String (List ServiceGroup) :=
  topologicalSortLoop edges remaining.length remaining 0 []

/-- `ResolveDependencies` from `dependency.go`: build the graph, detect
cycles, then sort into levels.  `services` is the key set of the
resolver's service map. -/
def ResolveDependencies (services : List String) (dependencies : List String) :
    Except String (List ServiceGroup) :=
  match buildEdges services dependencies with
  | .error e => .error e
  | .ok edges =>
      match detectCycles services edges with
      | .error e => .error e
      | .ok _ => topologicalSort edges (initRemaining services edges)

/-- Concatenation of the levels, in order. -/
def flattenGroups (groups : List ServiceGroup) : List String :=
  groups.foldl (fun acc g => acc ++ g.Services) []

/-- `GetExecutionOrder` from `dependency.go`: resolve, then flatten. -/
def GetExecutionOrder (services : List String) (dependencies : List String) :
    Except String (List String) :=
  match ResolveDependencies services dependencies with
  | .error e => .error e
  | .ok groups => .ok (flattenGroups groups)

/-- `GetParallelGroups` from `dependency.go`. -/
def GetParallelGroups (services : List String) (dependencies : List String) :
    Except String (List ServiceGroup) :=
  ResolveDependencies services dependencies

/-! ## Hook command gate (`ValidateHookCommand` in `switcher.go`) -/

/-- The `dangerousPatterns` slice of `ValidateHookCommand`, in source
order.  (`\x60` is a backtick, `\x27` an apostrophe.) -/
def dangerousPatterns : List String :=
  [";rm -rf", "rm -rf /", ";curl", "wget", "sudo ", "su ", "|sh", "|bash",
   "eval ", "exec ", "\x60", "$(", "& ", "&&", "||", "|&"]

/-- The character class of the `safePattern` regular expression
`[a-zA-Z0-9\s\-_./=:@\[\]{}()\n"']` (RE2 `\s` is space, tab, newline,
form feed, carriage return). -/
def safeChar (c : Char) : Bool :=
  ('a' ≤ c && c ≤ 'z') || ('A' ≤ c && c ≤ 'Z') || ('0' ≤ c && c ≤ '9') ||
  c = ' ' || c = '\t' || c = '\n' || c = '\x0c' || c = '\r' ||
  c = '-' || c = '_' || c = '.' || c = '/' || c = '=' || c = ':' || c = '@' ||
  c = '[' || c = ']' || c = '\x7b' || c = '\x7d' || c = '(' || c = ')' ||
  c = '"' || c = '\x27'

/-- `ValidateHookCommand` from `switcher.go`.  Go `len(command)` counts
bytes, embedded as `utf8ByteSize`.  `strings.Contains` on the lowercased
bytes is substring search; since every pattern is ASCII and ASCII bytes
never occur inside multi-byte UTF-8 sequences, it coincides with `Char`
infix search on the `Char.toLower`-mapped text (`strings.ToLower` and
`Char.toLower` agree on ASCII, and the non-ASCII code points that Unicode
lowercasing can turn into ASCII — such as the Kelvin sign — produce letters
that occur in no pattern).  The anchored `safePattern.MatchString` is a
full-string match (RE2 `$` does not match before a trailing newline). -/
def ValidateHookCommand (command : String) : Option String :=
  if command = "" then some "hook command cannot be empty"
  else if command.utf8ByteSize > 1000 then
    some "hook command too long (max 1000 characters)"
  else
    match dangerousPatterns.find?
        (fun p => decide (p.data <:+: command.data.map Char.toLower)) with
    | some p => some ("hook command contains potentially dangerous pattern: " ++ p)
    | none =>
        if command.data.all safeChar then none
        else some "hook command contains unsafe characters"

/-! ## Switch orchestrator (`switcher.go`)

The orchestrator calls out to registered `ServiceSwitcher` adapters, to the
shell (for hooks) and to the wall clock.  These collaborators are embedded
as parameters: an adapter is a record of deterministic per-call results
over an opaque state type `σ` (the Go `interface{}` state), the shell is a
function from command string to optional error, and elapsed time is a
function `clock` of the number of completed levels.  Every call that the Go
code makes to a collaborator is recorded in an event trace.  `time.Now()`
timestamps inside error records are abstracted to `0`; no claim depends on
their values.  The goroutines of a parallel level are embedded as their
program-order serialization: the parallel branch runs every service of the
level to completion and aggregates the errors, exactly as the Go barrier
(`wg.Wait`) plus error channel do, with one representative interleaving
order. -/

/-- The `interface{}` value passed to `Switch`: the variant selected by the
service-name switch, possibly a nil pointer. -/
inductive ConfigVal where
  | aws : Option AWSConfig → ConfigVal
  | gcp : Option GCPConfig → ConfigVal
  | azure : Option AzureConfig → ConfigVal
  | docker : Option DockerConfig → ConfigVal
  | kubernetes : Option KubernetesConfig → ConfigVal
  | ssh : Option SSHConfig → ConfigVal
deriving DecidableEq

/-- Behaviour of one registered `ServiceSwitcher` adapter (the
four-operation capability contract; `Name()` is only used at registration
time and is not needed here).  `none` results mean nil error. -/
structure ServiceSwitcher (σ : Type) where
  getCurrentState : Except String σ
  switchResult : ConfigVal → Option String
  rollbackResult : σ → Option String

/-- One observable collaborator call made during a switch. -/
inductive SwitchEvent (σ : Type) where
  | getState (service : String)
  | switchCall (service : String) (config : ConfigVal)
  | rollbackCall (service : String) (prev : σ)
  | hookRun (command : String)
deriving DecidableEq

/-- The `switch serviceName` statement of `switchSingleService`: pick the
variant matching the service name; `none` is the `default` (unknown
service type) branch. -/
def selectConfig (serviceName : String) (sc : ServiceConfig) : Option ConfigVal :=
  if serviceName = "aws" then some (.aws sc.AWS)
  else if serviceName = "gcp" then some (.gcp sc.GCP)
  else if serviceName = "azure" then some (.azure sc.Azure)
  else if serviceName = "docker" then some (.docker sc.Docker)
  else if serviceName = "kubernetes" then some (.kubernetes sc.Kubernetes)
  else if serviceName = "ssh" then some (.ssh sc.SSH)
  else none

/-- The `config == nil` test of `switchSingleService`.  In Go, `config` is
an `interface{}` that every non-default branch of the switch assigns a
typed pointer field (`serviceConfig.AWS`, ...).  An interface holding a
typed — even nil — pointer compares unequal to untyped nil, so this test is
false on every path that reaches it: the "no configuration provided"
branch is dead code, and a nil variant pointer is passed on to `Switch`. -/
def interfaceIsNil : ConfigVal → Bool := fun _ => false

/-- `switchSingleService` from `switcher.go`.  Returns the updated
captured-state map, the updated result, the emitted events, and the
returned error (if any). -/
def switchSingleService {σ : Type} (switchers : List (String × ServiceSwitcher σ))
    (env : Environment) (serviceName : String) (previousStates : List (String × σ))
    (result : SwitchResult) (options : SwitchOptions) :
    List (String × σ) × SwitchResult × List (SwitchEvent σ) × Option String :=
  match switchers.lookup serviceName with
  | none => (previousStates, result, [],
      some ("no switcher registered for service: " ++ serviceName))
  | some switcher =>
      match env.Services.lookup serviceName with
      | none => (previousStates, result, [],
          some ("service configuration not found: " ++ serviceName))
      | some serviceConfig =>
          match switcher.getCurrentState with
          | .error e => (previousStates, result, [.getState serviceName],
              some ("failed to get current state for " ++ serviceName ++ ": " ++ e))
          | .ok currentState =>
              let previousStates2 := previousStates ++ [(serviceName, currentState)]
              match selectConfig serviceName serviceConfig with
              | none => (previousStates2, result, [.getState serviceName],
                  some ("unknown service type: " ++ serviceName))
              | some config =>
                  if interfaceIsNil config then
                    (previousStates2, result, [.getState serviceName],
                     some ("no configuration provided for service: " ++ serviceName))
                  else if options.DryRun then
                    (previousStates2,
                     { result with SwitchedServices := result.SwitchedServices ++ [serviceName] },
                     [.getState serviceName], none)
                  else
                    match switcher.switchResult config with
                    | some e =>
                        (previousStates2,
                         { result with
                             FailedServices := result.FailedServices ++ [serviceName],
                             Errors := result.Errors ++ [⟨serviceName, e, 0⟩] },
                         [.getState serviceName, .switchCall serviceName config],
                         some ("failed to switch " ++ serviceName ++ ": " ++ e))
                    | none =>
                        (previousStates2,
                         { result with
                             SwitchedServices := result.SwitchedServices ++ [serviceName] },
                         [.getState serviceName, .switchCall serviceName config], none)

/-- The sequential branch of the level loop: process the level's services
in order, returning on the first error (exactly the
`for _, serviceName := range group.Services` loop). -/
def switchLevelSeq {σ : Type} (switchers : List (String × ServiceSwitcher σ))
    (env : Environment) (options : SwitchOptions) :
    List String → List (String × σ) → SwitchResult →
    List (String × σ) × SwitchResult × List (SwitchEvent σ) × Option String
  | [], ps, res => (ps, res, [], none)
  | name :: rest, ps, res =>
      match switchSingleService switchers env name ps res options with
      | (ps2, res2, evs, some e) => (ps2, res2, evs, some e)
      | (ps2, res2, evs, none) =>
          match switchLevelSeq switchers env options rest ps2 res2 with
          | (ps3, res3, evs2, r) => (ps3, res3, evs ++ evs2, r)

/-- The goroutine loop of `switchServicesParallel`: every service of the
level runs to completion (no short-circuit); errors are collected. -/
def switchLevelPar {σ : Type} (switchers : List (String × ServiceSwitcher σ))
    (env : Environment) (options : SwitchOptions) :
    List String → List (String × σ) → SwitchResult →
    List (String × σ) × SwitchResult × List (SwitchEvent σ) × List String
  | [], ps, res => (ps, res, [], [])
  | name :: rest, ps, res =>
      match switchSingleService switchers env name ps res options with
      | (ps2, res2, evs, r) =>
          match switchLevelPar switchers env options rest ps2 res2 with
          | (ps3, res3, evs2, errs) =>
              (ps3, res3, evs ++ evs2,
               (match r with | some e => [e] | none => []) ++ errs)

/-- `switchServicesParallel` from `switcher.go`: barrier join, then one
aggregated error if any unit failed. -/
def switchServicesParallel {σ : Type} (switchers : List (String × ServiceSwitcher σ))
    (env : Environment) (options : SwitchOptions) (serviceNames : List String)
    (ps : List (String × σ)) (res : SwitchResult) :
    List (String × σ) × SwitchResult × List (SwitchEvent σ) × Option String :=
  match switchLevelPar switchers env options serviceNames ps res with
  | (ps2, res2, evs, errs) =>
      (ps2, res2, evs,
       if errs.isEmpty then none
       else some ("parallel switch failed: " ++ String.intercalate "; " errs))

/-- The sweep loop of `rollbackServices`: error strings collected, one
rollback call per captured entry whose switcher is still registered. -/
def rollbackLoop {σ : Type} (switchers : List (String × ServiceSwitcher σ)) :
    List (String × σ) → List String × List (SwitchEvent σ)
  | [] => ([], [])
  | (name, prev) :: rest =>
      match switchers.lookup name with
      | none =>
          match rollbackLoop switchers rest with
          | (errs, evs) => (("no switcher for " ++ name) :: errs, evs)
      | some sw =>
          match sw.rollbackResult prev with
          | some e =>
              match rollbackLoop switchers rest with
              | (errs, evs) =>
                  ((name ++ ": " ++ e) :: errs, .rollbackCall name prev :: evs)
          | none =>
              match rollbackLoop switchers rest with
              | (errs, evs) => (errs, .rollbackCall name prev :: evs)

/-- `rollbackServices` from `switcher.go`: best-effort sweep over every
captured state, then `RollbackPerformed = true` and at most one combined
"rollback" error record. -/
def rollbackServices {σ : Type} (switchers : List (String × ServiceSwitcher σ))
    (previousStates : List (String × σ)) (result : SwitchResult) :
    SwitchResult × List (SwitchEvent σ) :=
  match rollbackLoop switchers previousStates with
  | (rollbackErrors, evs) =>
      let result2 := { result with RollbackPerformed := true }
      if rollbackErrors.isEmpty then (result2, evs)
      else
        ({ result2 with
            Errors := result2.Errors ++
              [⟨"rollback", String.intercalate "; " rollbackErrors, 0⟩] }, evs)

/-- `executeHook` from `switcher.go`: gate the command, then run it through
the shell under the hook timeout (the shell's behaviour, including any
timeout effect, is the `shell` parameter). -/
def executeHook {σ : Type} (shell : String → Option String) (hook : Hook)
    (hookName : String) : List (SwitchEvent σ) × Option String :=
  match ValidateHookCommand hook.Command with
  | some e => ([], some ("hook \x27" ++ hookName ++ "\x27 validation failed: " ++ e))
  | none =>
      match shell hook.Command with
      | some e => ([.hookRun hook.Command],
          some ("hook \x27" ++ hookName ++ "\x27 failed: " ++ e))
      | none => ([.hookRun hook.Command], none)

/-- `executeHooks` from `switcher.go`: hooks run in order with indexed
names; an error with policy `continue` is skipped, any other error aborts
the phase. -/
def executeHooksLoop {σ : Type} (shell : String → Option String) (hookType : String) :
    Nat → List Hook → List (SwitchEvent σ) × Option String
  | _, [] => ([], none)
  | i, hook :: rest =>
      match @executeHook σ shell hook (hookType ++ "-" ++ toString i) with
      | (evs, some e) =>
          if hook.OnError = "continue" then
            match executeHooksLoop shell hookType (i + 1) rest with
            | (evs2, r) => (evs ++ evs2, r)
          else (evs, some ("hook execution failed: " ++ e))
      | (evs, none) =>
          match executeHooksLoop shell hookType (i + 1) rest with
          | (evs2, r) => (evs ++ evs2, r)

/-- The level loop of `SwitchEnvironment`.  Arguments after the groups
list: completed-service count, completed-level count (the clock index),
captured states, running result.  Returns captured states, result, events,
progress snapshots, and the error that aborted the loop (if any). -/
def runLevels {σ : Type} (switchers : List (String × ServiceSwitcher σ))
    (env : Environment) (options : SwitchOptions) (hasCallback : Bool)
    (startTime : ℚ) (clock : Nat → ℚ) (totalServices : Nat) :
    List ServiceGroup → Nat → Nat → List (String × σ) → SwitchResult →
    List (String × σ) × SwitchResult × List (SwitchEvent σ) × List SwitchProgress × Option String
  | [], _, _, ps, res => (ps, res, [], [], none)
  | group :: groups, completed, k, ps, res =>
      let step :=
        if options.Parallel && decide (1 < group.Services.length) then
          switchServicesParallel switchers env options group.Services ps res
        else switchLevelSeq switchers env options group.Services ps res
      match step with
      | (ps2, res2, evs, some e) =>
          if options.RollbackOnError then
            match rollbackServices switchers ps2 res2 with
            | (res3, revs) =>
                (ps2, { res3 with Success := false, Duration := clock k },
                 evs ++ revs, [], some e)
          else
            (ps2, { res2 with Success := false, Duration := clock k }, evs, [], some e)
      | (ps2, res2, evs, none) =>
          let completed2 := completed + group.Services.length
          let snaps : List SwitchProgress :=
            if hasCallback then
              [{ TotalServices := totalServices, CompletedServices := completed2,
                 Status := "Completed group " ++ toString group.Level,
                 StartTime := startTime,
                 EstimatedEnd :=
                   startTime + clock k * (totalServices : ℚ) / (completed2 : ℚ) }]
            else []
          match runLevels switchers env options hasCallback startTime clock totalServices
              groups completed2 (k + 1) ps2 res2 with
          | (ps3, res3, evs2, snaps2, r) => (ps3, res3, evs ++ evs2, snaps ++ snaps2, r)

/-- Everything `SwitchEnvironment` makes observable: the Go return pair
`(*SwitchResult, error)` (with `none` as nil), the collaborator-call
trace, the emitted progress snapshots, and the captured-state map as it
stood when the call returned. -/
structure RunOutput (σ : Type) where
  result : Option SwitchResult
  err : Option String
  trace : List (SwitchEvent σ)
  snapshots : List SwitchProgress
  finalStates : List (String × σ)

/-- `SwitchEnvironment` from `switcher.go`. -/
def SwitchEnvironment {σ : Type} (switchers : List (String × ServiceSwitcher σ))
    (shell : String → Option String) (hasCallback : Bool) (startTime : ℚ)
    (clock : Nat → ℚ) (env : Environment) (options : SwitchOptions) : RunOutput σ :=
  match env.Validate with
  | some e => ⟨none, some ("environment validation failed: " ++ e), [], [], []⟩
  | none =>
      match GetParallelGroups (env.Services.map (·.1)) env.Dependencies with
      | .error e => ⟨none, some ("dependency resolution failed: " ++ e), [], [], []⟩
      | .ok groups =>
          let result : SwitchResult :=
            { Success := true, SwitchedServices := [], FailedServices := [], Errors := [] }
          match @executeHooksLoop σ shell "pre-hook" 0 env.PreHooks with
          | (evs, some e) =>
              ⟨some { Success := false, SwitchedServices := [], FailedServices := [],
                      Duration := clock 0, Errors := [⟨"pre-hook", e, 0⟩] },
               some e, evs, [], []⟩
          | (evs, none) =>
              let totalServices := env.Services.length
              match runLevels switchers env options hasCallback startTime clock
                  totalServices groups 0 0 [] result with
              | (ps, res, evs2, snaps, some e) =>
                  ⟨some res, some e, evs ++ evs2, snaps, ps⟩
              | (ps, res, evs2, snaps, none) =>
                  match @executeHooksLoop σ shell "post-hook" 0 env.PostHooks with
                  | (evs3, some e) =>
                      ⟨some { res with
                          Duration := clock groups.length,
                          Errors := res.Errors ++ [⟨"post-hook", e, 0⟩] },
                       none, evs ++ evs2 ++ evs3, snaps, ps⟩
                  | (evs3, none) =>
                      ⟨some { res with Duration := clock groups.length },
                       none, evs ++ evs2 ++ evs3, snaps, ps⟩

/-! ## Derived notions used in the statements -/

/-- Key list of an association list. -/
def keysOf {β : Type} (l : List (String × β)) : List String := l.map (·.1)

/-- Number of edges from a source in `srcs` into `t` (with multiplicity). -/
def countFromInto (edges : List (String × String)) (srcs : List String) (t : String) : Nat :=
  edges.countP (fun e => decide (e.1 ∈ srcs) && decide (e.2 = t))

/-- Invariant of the Kahn loop: distinct keys, and every stored degree is
the number of edges into that key from sources that are still keys. -/
def RemInv (edges : List (String × String)) (rem : List (String × Int)) : Prop :=
  (keysOf rem).Nodup ∧
  ∀ p ∈ rem, p.2 = (countFromInto edges (keysOf rem) p.1 : Int)

/-- All dependency strings parse into exactly two parts naming known
services (the hypothesis under which graph construction succeeds);
decidable, so concrete instances can be checked by evaluation. -/
def DepsWellFormed (services : List String) (deps : List String) : Prop :=
  ∀ dep ∈ deps, (parseDependency dep).length = 2 ∧
    ∀ p ∈ parseDependency dep, p ∈ services

instance (services deps : List String) : Decidable (DepsWellFormed services deps) := by
  unfold DepsWellFormed; infer_instance

/-- Invariant of the colouring maps during `detectCycles`:
gray and black are disjoint, gray implies non-white, a non-white non-gray
service is black, black nodes lie on no cycle, and whites are services. -/
def StInv (services : List String) (edges : List (String × String)) (st : DfsState) : Prop :=
  (∀ s, st.gray s = true → st.black s = true → False) ∧
  (∀ s, st.gray s = true → st.white s = false) ∧
  (∀ s ∈ services, st.white s = false → st.gray s = false → st.black s = true) ∧
  (∀ s, st.black s = true → ¬ Relation.TransGen (EdgeRel edges) s s) ∧
  (∀ s, st.white s = true → s ∈ services) ∧
  (∀ s, st.white s = true → st.black s = false)

/-- The six service names of the `switch serviceName` statement. -/
def knownServiceNames : List String :=
  ["aws", "gcp", "azure", "docker", "kubernetes", "ssh"]

/-- The service a trace event refers to (`none` for hook events). -/
def eventServiceName {σ : Type} : SwitchEvent σ → Option String
  | .getState s => some s
  | .switchCall s _ => some s
  | .rollbackCall s _ => some s
  | .hookRun _ => none

/-- Is the event an invocation of a capability's `Switch`? -/
def isSwitchCallEvent {σ : Type} : SwitchEvent σ → Bool
  | .switchCall _ _ => true
  | _ => false

/-- Is the event an invocation of a capability's `Rollback`? -/
def isRollbackEvent {σ : Type} : SwitchEvent σ → Bool
  | .rollbackCall _ _ => true
  | _ => false

/-- Concrete fixtures used to instantiate the theorems. -/
def awsCfg : ServiceConfig := { AWS := some ⟨"p", "r", ""⟩ }

def envAws : Environment := { Name := "e", Services := [("aws", awsCfg)] }

def okSwitcher : ServiceSwitcher Unit :=
  { getCurrentState := .ok (), switchResult := fun _ => none, rollbackResult := fun _ => none }

def noShell : String → Option String := fun _ => none

def zeroClock : Nat → ℚ := fun _ => 0

/-- Number of combined "rollback" error records in a result. -/
def countRollbackErrors (res : SwitchResult) : Nat :=
  res.Errors.countP (fun er => decide (er.Service = "rollback"))

/-! ## Parser lemmas -/

lemma pda_nil (skipping : Bool) (current : List Char) (parts : List String) :
    parseDependencyAux skipping [] current parts =
      if current.isEmpty then parts else parts ++ [String.mk (trim current)] := by
  cases skipping <;> rfl

lemma pda_cons_ne_space (c : Char) (l : List Char) (current : List Char) (parts : List String)
    (hc : ¬ c = ' ') :
    parseDependencyAux false (c :: l) current parts =
      parseDependencyAux false l (current ++ [c]) parts := by
  conv_lhs => rw [parseDependencyAux.eq_def]
  split
  · simp_all
  · simp_all
  · simp_all
  · rename_i h
    injection h with h1 h2
    subst h1; subst h2
    rfl

lemma pda_sep (c : Char) (l : List Char) (current : List Char) (parts : List String) :
    parseDependencyAux false (' ' :: '-' :: '>' :: c :: l) current parts =
      parseDependencyAux true (c :: l) []
        (if current.isEmpty then parts else parts ++ [String.mk (trim current)]) := rfl

lemma pda_skip_space (l : List Char) (current : List Char) (parts : List String) :
    parseDependencyAux true (' ' :: l) current parts =
      parseDependencyAux true l current parts := by
  simp [parseDependencyAux]

lemma pda_skip_ne_space (c : Char) (l : List Char) (current : List Char) (parts : List String)
    (hc : ¬ c = ' ') :
    parseDependencyAux true (c :: l) current parts =
      parseDependencyAux false l (current ++ [c]) parts := by
  simp [parseDependencyAux, hc]

lemma dropWhile_eq_self_of_all {p : Char → Bool} {l : List Char}
    (h : ∀ c ∈ l, ¬ p c = true) : l.dropWhile p = l := by
  cases l with
  | nil => rfl
  | cons c l =>
      rw [List.dropWhile_cons]
      simp [h c (by simp)]

lemma trim_eq_self_of_all {l : List Char} (h : ∀ c ∈ l, ¬ isTrimSpace c = true) :
    trim l = l := by
  unfold trim
  rw [dropWhile_eq_self_of_all h, dropWhile_eq_self_of_all (by simpa using h)]
  simp

/-- Consuming a run of non-space, non-separator characters accumulates them
into `current`. -/
lemma pda_consume (f : List Char) (hf : ∀ c ∈ f, ¬ c = ' ') :
    ∀ (l : List Char) (current : List Char) (parts : List String),
    parseDependencyAux false (f ++ l) current parts =
      parseDependencyAux false l (current ++ f) parts := by
  induction f with
  | nil => intro l current parts; simp
  | cons c f ih =>
      intro l current parts
      rw [List.cons_append, pda_cons_ne_space c (f ++ l) current parts (hf c (by simp)),
        ih (fun d hd => hf d (by simp [hd])) l (current ++ [c]) parts]
      simp

/-- Canonical well-formed dependency strings parse to their two names:
`"f -> t"` with nonempty whitespace-free names yields `[f, t]`. -/
lemma parseDependency_canonical (f t : List Char) (hf : f ≠ []) (ht : t ≠ [])
    (hfc : ∀ c ∈ f, ¬ isTrimSpace c = true) (htc : ∀ c ∈ t, ¬ isTrimSpace c = true) :
    parseDependency (String.mk (f ++ (' ' :: '-' :: '>' :: ' ' :: t))) =
      [String.mk f, String.mk t] := by
  have hfs : ∀ c ∈ f, ¬ c = ' ' := by
    intro c hc he; exact hfc c hc (by simp [isTrimSpace, he])
  have hts : ∀ c ∈ t, ¬ c = ' ' := by
    intro c hc he; exact htc c hc (by simp [isTrimSpace, he])
  unfold parseDependency
  rw [show (String.mk (f ++ (' ' :: '-' :: '>' :: ' ' :: t))).data =
      f ++ (' ' :: '-' :: '>' :: ' ' :: t) from rfl]
  rw [pda_consume f hfs _ [] []]
  simp only [List.nil_append]
  rw [pda_sep ' ' t f []]
  rw [show (f.isEmpty = false) from by simpa [List.isEmpty_iff] using hf]
  simp only [Bool.false_eq_true, if_false, List.nil_append]
  rw [pda_skip_space]
  cases t with
  | nil => exact absurd rfl ht
  | cons c t2 =>
      rw [pda_skip_ne_space c t2 [] _ (hts c (by simp))]
      simp only [List.nil_append]
      rw [← List.append_nil t2, pda_consume t2 (fun d hd => hts d (by simp [hd])) [] [c] _]
      rw [pda_nil]
      rw [show (([c] ++ t2).isEmpty = false) from by simp]
      simp only [Bool.false_eq_true, if_false]
      rw [trim_eq_self_of_all hfc, trim_eq_self_of_all (by
        intro d hd
        simp only [List.singleton_append, List.mem_cons] at hd
        rcases hd with h | h
        · subst h; exact htc d (by simp)
        · exact htc d (by simp [h]))]
      simp

/-! ## Graph-construction lemmas -/

lemma buildEdges_eq_ok {services : List String} :
    ∀ deps, DepsWellFormed services deps →
      buildEdges services deps = .ok (depEdges deps) := by
  intro deps
  induction deps with
  | nil => intro _; rfl
  | cons dep rest ih =>
      intro h
      obtain ⟨hlen, hmem⟩ := h dep (by simp)
      have hrest : DepsWellFormed services rest := fun d hd => h d (by simp [hd])
      match hp : parseDependency dep with
      | [] => rw [hp] at hlen; simp at hlen
      | [x] => rw [hp] at hlen; simp at hlen
      | x :: y :: z :: w => rw [hp] at hlen; simp at hlen
      | [f, t] =>
          have hf : f ∈ services := hmem f (by rw [hp]; simp)
          have ht : t ∈ services := hmem t (by rw [hp]; simp)
          have hrec := ih hrest
          simp only [buildEdges, hp, hf, ht, if_pos, hrec, depEdges, List.filterMap_cons]

lemma depEdges_cons_parsed {dep : String} {f t : String} {rest : List String}
    (hp : parseDependency dep = [f, t]) :
    depEdges (dep :: rest) = (f, t) :: depEdges rest := by
  simp only [depEdges, List.filterMap_cons, hp]

lemma depEdges_endpoints {services deps : List String} (h : DepsWellFormed services deps) :
    ∀ e ∈ depEdges deps, e.1 ∈ services ∧ e.2 ∈ services := by
  intro e he
  rw [depEdges, List.mem_filterMap] at he
  obtain ⟨dep, hdep, hsome⟩ := he
  obtain ⟨hlen, hmem⟩ := h dep hdep
  match hp : parseDependency dep with
  | [] => rw [hp] at hlen; simp at hlen
  | [x] => rw [hp] at hlen; simp at hlen
  | x :: y :: z :: w => rw [hp] at hlen; simp at hlen
  | [f, t] =>
      rw [hp] at hsome
      simp only [Option.some.injEq] at hsome
      subst hsome
      exact ⟨hmem f (by rw [hp]; simp), hmem t (by rw [hp]; simp)⟩

lemma mem_graphOf {edges : List (String × String)} {s t : String} :
    t ∈ graphOf edges s ↔ (s, t) ∈ edges := by
  simp only [graphOf, List.mem_map, List.mem_filter, decide_eq_true_eq]
  constructor
  · rintro ⟨⟨a, b⟩, ⟨hmem, ha⟩, rfl⟩
    exact ha ▸ hmem
  · intro h
    exact ⟨(s, t), ⟨h, rfl⟩, rfl⟩

lemma count_graphOf (edges : List (String × String)) (a t : String) :
    (graphOf edges a).count t =
      edges.countP (fun e => decide (e.1 = a) && decide (e.2 = t)) := by
  rw [graphOf, List.count_eq_countP, List.countP_map, List.countP_filter]
  apply List.countP_congr
  intro e _
  simp only [Function.comp, Bool.and_eq_true, beq_iff_eq, decide_eq_true_eq]
  exact and_comm

lemma countFromInto_split (edges : List (String × String)) {keys cl keys1 : List String}
    (hiff : ∀ x, x ∈ keys ↔ x ∈ cl ∨ x ∈ keys1)
    (hdisj : ∀ x, x ∈ cl → x ∉ keys1) (t : String) :
    countFromInto edges keys t = countFromInto edges cl t + countFromInto edges keys1 t := by
  unfold countFromInto
  induction edges with
  | nil => rfl
  | cons e es ih =>
      simp only [List.countP_cons]
      rw [ih]
      by_cases h2 : e.2 = t
      · by_cases hcl : e.1 ∈ cl
        · have h1 : e.1 ∈ keys := (hiff e.1).mpr (Or.inl hcl)
          have hk1 : e.1 ∉ keys1 := hdisj _ hcl
          simp [h1, h2, hcl, hk1]
          omega
        · by_cases hk1 : e.1 ∈ keys1
          · have h1 : e.1 ∈ keys := (hiff e.1).mpr (Or.inr hk1)
            simp [h1, h2, hcl, hk1]
            omega
          · have h1 : e.1 ∉ keys := fun hh => ((hiff e.1).mp hh).elim hcl hk1
            simp [h1, hcl, hk1]
      · simp [h2]

lemma countFromInto_cons_src (edges : List (String × String)) (a : String)
    (cl : List String) (ha : a ∉ cl) (t : String) :
    countFromInto edges (a :: cl) t = (graphOf edges a).count t + countFromInto edges cl t := by
  rw [count_graphOf]
  have hsingle : countFromInto edges [a] t =
      edges.countP (fun e => decide (e.1 = a) && decide (e.2 = t)) := by
    unfold countFromInto
    apply List.countP_congr
    intro e _
    simp
  rw [← hsingle]
  exact @countFromInto_split edges (a :: cl) [a] cl (by simp) (by simpa using ha) t

lemma countFromInto_nil_srcs (edges : List (String × String)) (t : String) :
    countFromInto edges [] t = 0 := by
  unfold countFromInto
  rw [List.countP_eq_zero]
  intro e _
  simp

/-! ## Association-list key lemmas -/

lemma mem_keysOf {β : Type} {l : List (String × β)} {x : String} :
    x ∈ keysOf l ↔ ∃ p ∈ l, p.1 = x := by
  simp [keysOf]

lemma keysOf_map_pres {β γ : Type} (l : List (String × β)) (g : String × β → γ) :
    keysOf (l.map (fun p => (p.1, g p))) = keysOf l := by
  unfold keysOf
  rw [List.map_map]
  rfl

lemma keysOf_filter_fst {β : Type} (l : List (String × β)) (p : String → Bool) :
    keysOf (l.filter (fun q => p q.1)) = (keysOf l).filter p := by
  unfold keysOf
  rw [List.map_filter]
  rfl


/-! ## Kahn-loop lemmas -/

lemma decrementDependents_eq (ds : List String) :
    ∀ rem : List (String × Int),
      decrementDependents ds rem =
        rem.map (fun p => (p.1, p.2 - (ds.count p.1 : Int))) := by
  induction ds with
  | nil =>
      intro rem
      unfold decrementDependents
      simp
  | cons d ds ih =>
      intro rem
      unfold decrementDependents at ih ⊢
      rw [List.foldl_cons, ih, List.map_map]
      apply List.map_congr_left
      intro p _
      by_cases hp : p.1 = d
      · simp only [Function.comp_apply, hp, if_pos, List.count_cons, Prod.mk.injEq,
          beq_iff_eq, if_true, true_and]
        push_cast
        ring
      · simp only [Function.comp_apply, hp, if_neg, List.count_cons, Prod.mk.injEq,
          beq_iff_eq, not_false_eq_true, true_and]
        rw [if_neg (fun h => hp h.symm)]
        simp

lemma filter_fst_map (l : List (String × Int)) (g : String × Int → Int) (p : String → Bool) :
    (l.map (fun q => (q.1, g q))).filter (fun q => p q.1) =
      (l.filter (fun q => p q.1)).map (fun q => (q.1, g q)) := by
  rw [List.map_filter]
  rfl

lemma removeLevel_eq (edges : List (String × String)) :
    ∀ (cl : List String), cl.Nodup →
      ∀ rem : List (String × Int),
        removeLevel edges cl rem =
          (rem.filter (fun p => decide ¬ p.1 ∈ cl)).map
            (fun p => (p.1, p.2 - (countFromInto edges cl p.1 : Int))) := by
  intro cl
  induction cl with
  | nil =>
      intro _ rem
      unfold removeLevel
      simp [countFromInto_nil_srcs]
  | cons a cl ih =>
      intro hnd rem
      have hacl : a ∉ cl := by simp [List.nodup_cons] at hnd; exact hnd.1
      have hclnd : cl.Nodup := by simp [List.nodup_cons] at hnd; exact hnd.2
      unfold removeLevel at ih ⊢
      rw [List.foldl_cons, decrementDependents_eq, ih hclnd]
      rw [filter_fst_map (rem.filter (fun p => decide ¬ p.1 = a))
        (fun q => q.2 - (List.count q.1 (graphOf edges a) : Int))
        (fun x => decide (x ∉ cl)), List.filter_filter]
      rw [List.filter_congr (fun (q : String × Int) _ => show
        ((decide ¬ q.1 ∈ cl) && (decide ¬ q.1 = a)) = (decide ¬ q.1 ∈ (a :: cl)) by
          by_cases h1 : q.1 = a <;> by_cases h2 : q.1 ∈ cl <;> simp [h1, h2])]
      rw [List.map_map]
      apply List.map_congr_left
      intro p _
      simp only [Function.comp_apply, Prod.mk.injEq, true_and]
      rw [countFromInto_cons_src edges a cl hacl]
      push_cast
      ring

lemma flattenGroups_foldl (gs : List ServiceGroup) :
    ∀ init, gs.foldl (fun acc g => acc ++ g.Services) init = init ++ flattenGroups gs := by
  induction gs with
  | nil => intro init; simp [flattenGroups]
  | cons g gs ih =>
      intro init
      rw [List.foldl_cons, ih (init ++ g.Services)]
      conv_rhs => rw [flattenGroups, List.foldl_cons, ih (([] : List String) ++ g.Services)]
      simp [List.append_assoc]

lemma flattenGroups_cons (g : ServiceGroup) (gs : List ServiceGroup) :
    flattenGroups (g :: gs) = g.Services ++ flattenGroups gs := by
  rw [flattenGroups, List.foldl_cons, flattenGroups_foldl]
  simp

lemma indexOf_append_right {a : String} {l₁ l₂ : List String} (h : a ∉ l₁) :
    (l₁ ++ l₂).indexOf a = l₁.length + l₂.indexOf a := by
  induction l₁ with
  | nil => simp
  | cons b l ih =>
      have hab : ¬ b = a := fun hh => h (by simp [hh])
      have hal : a ∉ l := fun hh => h (by simp [hh])
      simp only [List.cons_append, List.indexOf_cons, List.length_cons, ih hal]
      rw [show (b == a) = false by simpa using hab]
      simp only [cond_false]
      omega

lemma exists_zero_inDegree (edges : List (String × String)) (l : List String)
    (hne : l ≠ []) (hacyc : Acyclic edges) :
    ∃ s ∈ l, countFromInto edges l s = 0 := by
  by_contra hcon
  push_neg at hcon
  have hpred : ∀ s ∈ l, ∃ e ∈ edges, e.1 ∈ l ∧ e.2 = s := by
    intro s hs
    by_contra hno
    push_neg at hno
    apply hcon s hs
    rw [countFromInto, List.countP_eq_zero]
    intro e he
    simp only [Bool.and_eq_true, decide_eq_true_eq, not_and]
    intro h1 h2
    exact absurd h2 (hno e he h1)
  haveI : Finite {x // x ∈ l} := l.finite_toSet.to_subtype
  let r : {x // x ∈ l} → {x // x ∈ l} → Prop :=
    fun a b => Relation.TransGen (fun u v : {x // x ∈ l} => EdgeRel edges u.val v.val) a b
  haveI : IsTrans {x // x ∈ l} r := ⟨fun _ _ _ hab hbc => hab.trans hbc⟩
  haveI : IsIrrefl {x // x ∈ l} r := ⟨fun a ha => hacyc a.val
    (Relation.TransGen.lift Subtype.val (fun _ _ h => h) ha)⟩
  have hwf := Finite.wellFounded_of_trans_of_irrefl r
  obtain ⟨x, hx⟩ := List.exists_mem_of_ne_nil l hne
  obtain ⟨m, _, hmin⟩ := hwf.has_min Set.univ ⟨⟨x, hx⟩, trivial⟩
  obtain ⟨e, he, he1, he2⟩ := hpred m.val m.property
  exact hmin ⟨e.1, he1⟩ trivial
    (Relation.TransGen.single (show EdgeRel edges e.1 m.val by rw [EdgeRel, ← he2]; exact he))

/-- Main correctness of the Kahn loop under acyclicity: it succeeds, its
levels are nonempty, and their concatenation is a duplicate-free
permutation of the remaining keys in which every still-relevant edge goes
strictly forward. -/
lemma topoLoop_ok_of_acyclic (edges : List (String × String)) (hacyc : Acyclic edges) :
    ∀ (fuel : Nat) (rem : List (String × Int)) (level : Nat) (acc : List ServiceGroup),
      rem.length ≤ fuel → RemInv edges rem →
      ∃ gs, topologicalSortLoop edges fuel rem level acc = .ok (acc ++ gs) ∧
        (flattenGroups gs).Perm (keysOf rem) ∧
        (flattenGroups gs).Nodup ∧
        (∀ g ∈ gs, g.Services ≠ []) ∧
        (∀ a b, (a, b) ∈ edges → a ∈ keysOf rem → b ∈ keysOf rem →
          (flattenGroups gs).indexOf a < (flattenGroups gs).indexOf b) := by
  intro fuel
  induction fuel with
  | zero =>
      intro rem level acc hfuel _
      have : rem = [] := List.length_eq_zero.mp (Nat.le_zero.mp hfuel)
      subst this
      exact ⟨[], by simp [topologicalSortLoop, flattenGroups], by simp [flattenGroups, keysOf],
        by simp [flattenGroups], by simp, by simp [flattenGroups, keysOf]⟩
  | succ fuel ih =>
      intro rem level acc hfuel hinv
      match rem with
      | [] =>
          exact ⟨[], by simp [topologicalSortLoop, flattenGroups],
            by simp [flattenGroups, keysOf], by simp [flattenGroups], by simp,
            by simp [flattenGroups, keysOf]⟩
      | p :: rem' =>
          obtain ⟨hnd, hdeg⟩ := hinv
          have hstep : topologicalSortLoop edges (fuel + 1) (p :: rem') level acc =
              (if (List.insertionSort (fun a b : String => a.data ≤ b.data)
                  (((p :: rem').filter (fun q => decide (q.2 = 0))).map (·.1))).isEmpty then
                Except.error "circular dependency detected - no services with zero in-degree"
               else topologicalSortLoop edges fuel
                 (removeLevel edges (List.insertionSort (fun a b : String => a.data ≤ b.data)
                    (((p :: rem').filter (fun q => decide (q.2 = 0))).map (·.1))) (p :: rem'))
                 (level + 1)
                 (acc ++ [⟨List.insertionSort (fun a b : String => a.data ≤ b.data)
                    (((p :: rem').filter (fun q => decide (q.2 = 0))).map (·.1)), level⟩])) := rfl
          set rem0 : List (String × Int) := p :: rem' with hrem0
          set keys := keysOf rem0 with hkeys
          set fm := ((rem0.filter (fun q => decide (q.2 = 0))).map (·.1)) with hfm
          set cl := List.insertionSort (fun a b : String => a.data ≤ b.data) fm with hcl
          have hperm : cl.Perm fm := List.perm_insertionSort _ _
          have hmem_cl : ∀ x, x ∈ cl ↔ ∃ q ∈ rem0, q.2 = 0 ∧ q.1 = x := by
            intro x
            rw [hperm.mem_iff, hfm]
            simp only [List.mem_map, List.mem_filter, decide_eq_true_eq]
            constructor
            · rintro ⟨q, ⟨hq, hq2⟩, hq1⟩; exact ⟨q, hq, hq2, hq1⟩
            · rintro ⟨q, hq, hq2, hq1⟩; exact ⟨q, ⟨hq, hq2⟩, hq1⟩
          have hfm_nodup : fm.Nodup := by
            rw [hfm]
            exact List.Sublist.nodup (List.Sublist.map _ (List.filter_sublist rem0)) hnd
          have hcl_nodup : cl.Nodup := hperm.symm.nodup hfm_nodup
          have hcl_sub : ∀ x ∈ cl, x ∈ keys := by
            intro x hx
            obtain ⟨q, hq, _, hq1⟩ := (hmem_cl x).mp hx
            exact mem_keysOf.mpr ⟨q, hq, hq1⟩
          have hcl_zero : ∀ x ∈ cl, countFromInto edges keys x = 0 := by
            intro x hx
            obtain ⟨q, hq, hq2, hq1⟩ := (hmem_cl x).mp hx
            have hh := hdeg q hq
            rw [hq2, hq1] at hh
            exact_mod_cast hh.symm
          obtain ⟨s0, hs0k, hs0⟩ := exists_zero_inDegree edges keys
            (by rw [hkeys, hrem0]; simp [keysOf]) hacyc
          have hs0cl : s0 ∈ cl := by
            obtain ⟨q, hq, hq1⟩ := mem_keysOf.mp hs0k
            refine (hmem_cl s0).mpr ⟨q, hq, ?_, hq1⟩
            have hh := hdeg q hq
            rw [hq1, hs0] at hh
            simpa using hh
          have hclne : cl ≠ [] := fun h => by rw [h] at hs0cl; exact absurd hs0cl (by simp)
          have hnoedge : ∀ a b, (a, b) ∈ edges → a ∈ keys → b ∉ cl := by
            intro a b hab ha hb
            have h0 := hcl_zero b hb
            rw [countFromInto, List.countP_eq_zero] at h0
            exact h0 (a, b) hab (by simp [ha])
          set rem1 := removeLevel edges cl rem0 with hrem1
          have hrem1eq : rem1 = (rem0.filter (fun q => decide ¬ q.1 ∈ cl)).map
              (fun q => (q.1, q.2 - (countFromInto edges cl q.1 : Int))) :=
            removeLevel_eq edges cl hcl_nodup rem0
          have hkeys1 : keysOf rem1 = keys.filter (fun x => decide ¬ x ∈ cl) := by
            rw [hrem1eq, keysOf_map_pres, keysOf_filter_fst rem0 (fun x => decide ¬ x ∈ cl),
              hkeys]
          have hmem_keys1 : ∀ x, x ∈ keysOf rem1 ↔ x ∈ keys ∧ x ∉ cl := by
            intro x
            rw [hkeys1]
            simp [List.mem_filter]
          have hinv1 : RemInv edges rem1 := by
            constructor
            · rw [hkeys1]
              exact List.Sublist.nodup (List.filter_sublist keys) hnd
            · intro q' hq'
              rw [hrem1eq] at hq'
              obtain ⟨q, hqf, rfl⟩ := List.mem_map.mp hq'
              have hqmem : q ∈ rem0 := (List.mem_filter.mp hqf).1
              have hsplit := @countFromInto_split edges keys cl (keysOf rem1)
                (fun x => by
                  constructor
                  · intro hx
                    by_cases hxc : x ∈ cl
                    · exact Or.inl hxc
                    · exact Or.inr ((hmem_keys1 x).mpr ⟨hx, hxc⟩)
                  · rintro (hx | hx)
                    · exact hcl_sub x hx
                    · exact ((hmem_keys1 x).mp hx).1)
                (fun x hx hx1 => ((hmem_keys1 x).mp hx1).2 hx) q.1
              have hq := hdeg q hqmem
              rw [hq, hsplit]
              push_cast
              ring
          have hlen1 : rem1.length < rem0.length := by
            rw [hrem1eq, List.length_map]
            apply List.length_filter_lt_length_iff_exists.mpr
            obtain ⟨q, hq, hq1⟩ := mem_keysOf.mp hs0k
            exact ⟨q, hq, by simp [hq1, hs0cl]⟩
          have hfuel1 : rem1.length ≤ fuel := by
            have h2 : rem0.length ≤ fuel + 1 := hfuel
            omega
          obtain ⟨gs', hrec, hperm', hnodup', hne', hord'⟩ :=
            ih rem1 (level + 1) (acc ++ [⟨cl, level⟩]) hfuel1 hinv1
          have hkeys_perm : keys.Perm (cl ++ keysOf rem1) := by
            have h1 : (keys.filter (fun x => decide (x ∈ cl))).Perm cl := by
              rw [List.perm_ext_iff_of_nodup
                (List.Sublist.nodup (List.filter_sublist keys) hnd) hcl_nodup]
              intro x
              simp only [List.mem_filter, decide_eq_true_eq]
              exact ⟨fun h => h.2, fun h => ⟨hcl_sub x h, h⟩⟩
            have h2 : keys.Perm (keys.filter (fun x => decide (x ∈ cl)) ++
                keys.filter (fun x => decide ¬ x ∈ cl)) := by
              have h3 := (List.filter_append_perm (fun x => decide (x ∈ cl)) keys).symm
              refine h3.trans (List.Perm.append_left _ (List.Perm.of_eq ?_))
              apply List.filter_congr
              intro x _
              simp
            rw [hkeys1]
            exact h2.trans (List.Perm.append h1 (List.Perm.refl _))
          refine ⟨⟨cl, level⟩ :: gs', ?_, ?_, ?_, ?_, ?_⟩
          · rw [hstep, if_neg (by simpa [List.isEmpty_iff] using hclne), hrec]
            simp
          · rw [flattenGroups_cons]
            exact ((List.Perm.append_left cl hperm').trans hkeys_perm.symm).symm.symm
          · rw [flattenGroups_cons, List.nodup_append]
            refine ⟨hcl_nodup, hnodup', ?_⟩
            intro x hxcl hxflat
            have hx1 : x ∈ keysOf rem1 := hperm'.mem_iff.mp hxflat
            exact ((hmem_keys1 x).mp hx1).2 hxcl
          · intro g hg
            rcases List.mem_cons.mp hg with rfl | hg'
            · exact hclne
            · exact hne' g hg'
          · intro a b hab ha hb
            have hbcl : b ∉ cl := hnoedge a b hab ha
            rw [flattenGroups_cons]
            by_cases hacl : a ∈ cl
            · rw [List.indexOf_append_of_mem hacl, indexOf_append_right hbcl]
              have hlt : cl.indexOf a < cl.length := List.indexOf_lt_length.mpr hacl
              omega
            · have ha1 : a ∈ keysOf rem1 := (hmem_keys1 a).mpr ⟨ha, hacl⟩
              have hb1 : b ∈ keysOf rem1 := (hmem_keys1 b).mpr ⟨hb, hbcl⟩
              have hord := hord' a b hab ha1 hb1
              rw [indexOf_append_right hacl, indexOf_append_right hbcl]
              omega

/-- Properties of any successful Kahn-loop run (no acyclicity needed):
levels are nonempty and their concatenation is a duplicate-free
permutation of the remaining keys. -/
lemma topoLoop_ok_props (edges : List (String × String)) :
    ∀ (fuel : Nat) (rem : List (String × Int)) (level : Nat) (acc : List ServiceGroup)
      (gs0 : List ServiceGroup),
      topologicalSortLoop edges fuel rem level acc = .ok gs0 →
      (keysOf rem).Nodup →
      ∃ gs, gs0 = acc ++ gs ∧
        (flattenGroups gs).Perm (keysOf rem) ∧
        (flattenGroups gs).Nodup ∧
        (∀ g ∈ gs, g.Services ≠ []) := by
  intro fuel
  induction fuel with
  | zero =>
      intro rem level acc gs0 hok hnd
      match rem with
      | [] =>
          refine ⟨[], ?_, by simp [flattenGroups, keysOf], by simp [flattenGroups], by simp⟩
          have : gs0 = acc := by
            have h := hok
            simp [topologicalSortLoop] at h
            exact h.symm
          simp [this]
      | q :: rem' => exact absurd hok (by simp [topologicalSortLoop])
  | succ fuel ih =>
      intro rem level acc gs0 hok hnd
      match rem with
      | [] =>
          refine ⟨[], ?_, by simp [flattenGroups, keysOf], by simp [flattenGroups], by simp⟩
          have : gs0 = acc := by
            have h := hok
            simp [topologicalSortLoop] at h
            exact h.symm
          simp [this]
      | p :: rem' =>
          have hstep : topologicalSortLoop edges (fuel + 1) (p :: rem') level acc =
              (if (List.insertionSort (fun a b : String => a.data ≤ b.data)
                  (((p :: rem').filter (fun q => decide (q.2 = 0))).map (·.1))).isEmpty then
                Except.error "circular dependency detected - no services with zero in-degree"
               else topologicalSortLoop edges fuel
                 (removeLevel edges (List.insertionSort (fun a b : String => a.data ≤ b.data)
                    (((p :: rem').filter (fun q => decide (q.2 = 0))).map (·.1))) (p :: rem'))
                 (level + 1)
                 (acc ++ [⟨List.insertionSort (fun a b : String => a.data ≤ b.data)
                    (((p :: rem').filter (fun q => decide (q.2 = 0))).map (·.1)), level⟩])) := rfl
          set rem0 : List (String × Int) := p :: rem' with hrem0
          set keys := keysOf rem0 with hkeys
          set fm := ((rem0.filter (fun q => decide (q.2 = 0))).map (·.1)) with hfm
          set cl := List.insertionSort (fun a b : String => a.data ≤ b.data) fm with hcl
          rw [hstep] at hok
          by_cases hempty : cl.isEmpty
          · rw [if_pos hempty] at hok
            exact absurd hok (by simp)
          · rw [if_neg hempty] at hok
            have hperm : cl.Perm fm := List.perm_insertionSort _ _
            have hmem_cl : ∀ x, x ∈ cl ↔ ∃ q ∈ rem0, q.2 = 0 ∧ q.1 = x := by
              intro x
              rw [hperm.mem_iff, hfm]
              simp only [List.mem_map, List.mem_filter, decide_eq_true_eq]
              constructor
              · rintro ⟨q, ⟨hq, hq2⟩, hq1⟩; exact ⟨q, hq, hq2, hq1⟩
              · rintro ⟨q, hq, hq2, hq1⟩; exact ⟨q, ⟨hq, hq2⟩, hq1⟩
            have hfm_nodup : fm.Nodup := by
              rw [hfm]
              exact List.Sublist.nodup (List.Sublist.map _ (List.filter_sublist rem0)) hnd
            have hcl_nodup : cl.Nodup := hperm.symm.nodup hfm_nodup
            have hcl_sub : ∀ x ∈ cl, x ∈ keys := by
              intro x hx
              obtain ⟨q, hq, _, hq1⟩ := (hmem_cl x).mp hx
              exact mem_keysOf.mpr ⟨q, hq, hq1⟩
            have hclne : cl ≠ [] := by simpa [List.isEmpty_iff] using hempty
            set rem1 := removeLevel edges cl rem0 with hrem1
            have hrem1eq : rem1 = (rem0.filter (fun q => decide ¬ q.1 ∈ cl)).map
                (fun q => (q.1, q.2 - (countFromInto edges cl q.1 : Int))) :=
              removeLevel_eq edges cl hcl_nodup rem0
            have hkeys1 : keysOf rem1 = keys.filter (fun x => decide ¬ x ∈ cl) := by
              rw [hrem1eq, keysOf_map_pres, keysOf_filter_fst rem0 (fun x => decide ¬ x ∈ cl),
                hkeys]
            have hmem_keys1 : ∀ x, x ∈ keysOf rem1 ↔ x ∈ keys ∧ x ∉ cl := by
              intro x
              rw [hkeys1]
              simp [List.mem_filter]
            have hnd1 : (keysOf rem1).Nodup := by
              rw [hkeys1]
              exact List.Sublist.nodup (List.filter_sublist keys) hnd
            obtain ⟨gs', hgs0, hperm', hnodup', hne'⟩ :=
              ih rem1 (level + 1) (acc ++ [⟨cl, level⟩]) gs0 hok hnd1
            have hkeys_perm : keys.Perm (cl ++ keysOf rem1) := by
              have h1 : (keys.filter (fun x => decide (x ∈ cl))).Perm cl := by
                rw [List.perm_ext_iff_of_nodup
                  (List.Sublist.nodup (List.filter_sublist keys) hnd) hcl_nodup]
                intro x
                simp only [List.mem_filter, decide_eq_true_eq]
                exact ⟨fun h => h.2, fun h => ⟨hcl_sub x h, h⟩⟩
              have h2 : keys.Perm (keys.filter (fun x => decide (x ∈ cl)) ++
                  keys.filter (fun x => decide ¬ x ∈ cl)) := by
                have h3 := (List.filter_append_perm (fun x => decide (x ∈ cl)) keys).symm
                refine h3.trans (List.Perm.append_left _ (List.Perm.of_eq ?_))
                apply List.filter_congr
                intro x _
                simp
              rw [hkeys1]
              exact h2.trans (List.Perm.append h1 (List.Perm.refl _))
            refine ⟨⟨cl, level⟩ :: gs', ?_, ?_, ?_, ?_⟩
            · rw [hgs0]
              simp
            · rw [flattenGroups_cons]
              exact (List.Perm.append_left cl hperm').trans hkeys_perm.symm
            · rw [flattenGroups_cons, List.nodup_append]
              refine ⟨hcl_nodup, hnodup', ?_⟩
              intro x hxcl hxflat
              have hx1 : x ∈ keysOf rem1 := hperm'.mem_iff.mp hxflat
              exact ((hmem_keys1 x).mp hx1).2 hxcl
            · intro g hg
              rcases List.mem_cons.mp hg with rfl | hg'
              · exact hclne
              · exact hne' g hg'

/-! ## DFS cycle-detection lemmas -/

lemma setFlag_same (f : String → Bool) (s : String) (b : Bool) : setFlag f s b s = b := by
  simp [setFlag]

lemma setFlag_other (f : String → Bool) (s : String) (b : Bool) (t : String) (h : ¬ t = s) :
    setFlag f s b t = f t := by
  simp [setFlag, h]

lemma countP_bool_split (l : List String) (p q : String → Bool) :
    l.countP (fun t => p t && q t) + l.countP (fun t => p t && !(q t)) = l.countP p := by
  induction l with
  | nil => rfl
  | cons a l ih =>
      simp only [List.countP_cons]
      by_cases hp : p a = true <;> by_cases hq : q a = true <;> simp [hp, hq] <;> omega

lemma countP_setFlag_false_lt (services : List String) (w : String → Bool) (s : String)
    (hs : s ∈ services) (hw : w s = true) :
    services.countP (setFlag w s false) < services.countP w := by
  have hle : services.countP (setFlag w s false) ≤
      services.countP (fun t => w t && !(t == s)) := by
    apply List.countP_mono_left
    intro t _ ht
    by_cases h : t = s
    · subst h; rw [setFlag_same] at ht; cases ht
    · rw [setFlag_other _ _ _ _ h] at ht
      simp [ht, h]
  have hsplit := countP_bool_split services w (fun t => t == s)
  have hpos : 0 < services.countP (fun t => w t && (t == s)) :=
    List.countP_pos.mpr ⟨s, hs, by simp [hw]⟩
  omega

/-- One-step spec of the neighbour loop, parameterized by the spec of
`dfsVisit` at the smaller fuel (supplied by the outer induction). -/
lemma dfsNeighbors_spec (edges : List (String × String)) (services : List String)
    (fuel : Nat) (hTarg : ∀ e ∈ edges, e.2 ∈ services)
    (IH : ∀ (s' : String) (st' : DfsState),
        services.countP st'.white < fuel →
        StInv services edges st' → st'.white s' = true →
        (∀ g, st'.gray g = true → Relation.ReflTransGen (EdgeRel edges) g s') →
        (match dfsVisit (graphOf edges) fuel s' st' with
         | .ok st2 => StInv services edges st2 ∧ st2.black s' = true ∧
             (∀ t, st'.black t = true → st2.black t = true) ∧
             (∀ t, st2.white t = true → st'.white t = true) ∧
             (∀ t, st2.gray t = st'.gray t)
         | .error _ => ∃ x, Relation.TransGen (EdgeRel edges) x x))
    (s : String) :
    ∀ (ns : List String) (st : DfsState),
      (∀ n ∈ ns, EdgeRel edges s n) →
      StInv services edges st →
      st.gray s = true →
      (∀ g, st.gray g = true → Relation.ReflTransGen (EdgeRel edges) g s) →
      services.countP st.white < fuel →
      (match dfsNeighbors (dfsVisit (graphOf edges) fuel) s ns st with
       | .ok st2 => StInv services edges st2 ∧
           (∀ t, st.black t = true → st2.black t = true) ∧
           (∀ t, st2.white t = true → st.white t = true) ∧
           (∀ t, st2.gray t = st.gray t) ∧
           (∀ n ∈ ns, st2.black n = true)
       | .error _ => ∃ x, Relation.TransGen (EdgeRel edges) x x) := by
  intro ns
  induction ns with
  | nil =>
      intro st _ hinv _ _ _
      exact ⟨hinv, fun _ h => h, fun _ h => h, fun _ => rfl, by simp⟩
  | cons n rest ihrest =>
      intro st hns hinv hgs hgpath hfuel
      have hedge : EdgeRel edges s n := hns n (by simp)
      simp only [dfsNeighbors]
      by_cases hg : st.gray n = true
      · rw [if_pos hg]
        exact ⟨n, Relation.TransGen.tail' (hgpath n hg) hedge⟩
      · rw [if_neg hg]
        by_cases hw : st.white n = true
        · rw [if_pos hw]
          have hIH := IH n st hfuel hinv hw
            (fun g hgg => Relation.ReflTransGen.tail (hgpath g hgg) hedge)
          cases hv : dfsVisit (graphOf edges) fuel n st with
          | error e =>
              rw [hv] at hIH
              dsimp only
              exact hIH
          | ok st1 =>
              rw [hv] at hIH
              obtain ⟨hinv1, hbn, hbmono, hwanti, hgeq⟩ := hIH
              have hrec := ihrest st1 (fun m hm => hns m (by simp [hm])) hinv1
                ((hgeq s).trans hgs)
                (fun g hg1 => hgpath g ((hgeq g) ▸ hg1))
                (lt_of_le_of_lt (List.countP_mono_left (fun t _ ht => hwanti t ht)) hfuel)
              dsimp only
              cases hr : dfsNeighbors (dfsVisit (graphOf edges) fuel) s rest st1 with
              | error e =>
                  rw [hr] at hrec
                  exact hrec
              | ok st2 =>
                  rw [hr] at hrec
                  obtain ⟨hinv2, hbmono2, hwanti2, hgeq2, hallb2⟩ := hrec
                  refine ⟨hinv2, fun t ht => hbmono2 t (hbmono t ht),
                    fun t ht => hwanti t (hwanti2 t ht),
                    fun t => (hgeq2 t).trans (hgeq t), ?_⟩
                  intro m hm
                  rcases List.mem_cons.mp hm with rfl | hm'
                  · exact hbmono2 m hbn
                  · exact hallb2 m hm'
        · rw [if_neg hw]
          have hnserv : n ∈ services := hTarg (s, n) hedge
          have hnb : st.black n = true :=
            hinv.2.2.1 n hnserv (by simpa using hw) (by simpa using hg)
          have hrec := ihrest st (fun m hm => hns m (by simp [hm])) hinv hgs hgpath hfuel
          cases hr : dfsNeighbors (dfsVisit (graphOf edges) fuel) s rest st with
          | error e =>
              rw [hr] at hrec
              exact hrec
          | ok st2 =>
              rw [hr] at hrec
              obtain ⟨hinv2, hbmono2, hwanti2, hgeq2, hallb2⟩ := hrec
              refine ⟨hinv2, hbmono2, hwanti2, hgeq2, ?_⟩
              intro m hm
              rcases List.mem_cons.mp hm with rfl | hm'
              · exact hbmono2 m hnb
              · exact hallb2 m hm'

/-- Full spec of `dfsVisit`: with enough fuel, from a white start node with
valid colouring and gray-path invariants, it either succeeds — preserving
the invariants, blackening the start node, only shrinking white and
restoring gray — or the graph has a cycle. -/
lemma dfsVisit_spec (edges : List (String × String)) (services : List String)
    (hTarg : ∀ e ∈ edges, e.2 ∈ services) :
    ∀ (fuel : Nat) (s : String) (st : DfsState),
      services.countP st.white < fuel →
      StInv services edges st → st.white s = true →
      (∀ g, st.gray g = true → Relation.ReflTransGen (EdgeRel edges) g s) →
      (match dfsVisit (graphOf edges) fuel s st with
       | .ok st2 => StInv services edges st2 ∧ st2.black s = true ∧
           (∀ t, st.black t = true → st2.black t = true) ∧
           (∀ t, st2.white t = true → st.white t = true) ∧
           (∀ t, st2.gray t = st.gray t)
       | .error _ => ∃ x, Relation.TransGen (EdgeRel edges) x x) := by
  intro fuel
  induction fuel with
  | zero =>
      intro s st hfuel _ _ _
      exact absurd hfuel (Nat.not_lt_zero _)
  | succ fuel ih =>
      intro s st hfuel hinv hws hgpath
      obtain ⟨hGB, hGW, hCol, hNC, hWS, hWB⟩ := hinv
      have hs_serv : s ∈ services := hWS s hws
      have hgs_false : st.gray s = false := by
        cases h : st.gray s
        · rfl
        · rw [hGW s h] at hws; cases hws
      have hbs_false : st.black s = false := hWB s hws
      set st1 : DfsState :=
        { st with white := setFlag st.white s false,
                  gray := setFlag st.gray s true } with hst1
      have hw1 : ∀ t, st1.white t = setFlag st.white s false t := fun _ => rfl
      have hg1 : ∀ t, st1.gray t = setFlag st.gray s true t := fun _ => rfl
      have hb1 : ∀ t, st1.black t = st.black t := fun _ => rfl
      have hinv1 : StInv services edges st1 := by
        refine ⟨?_, ?_, ?_, ?_, ?_, ?_⟩
        · intro t hgt hbt
          rw [hb1] at hbt
          by_cases h : t = s
          · subst h
            rw [hbt] at hbs_false; cases hbs_false
          · rw [hg1, setFlag_other _ _ _ _ h] at hgt
            exact hGB t hgt hbt
        · intro t hgt
          rw [hw1]
          by_cases h : t = s
          · subst h
            rw [setFlag_same]
          · rw [hg1, setFlag_other _ _ _ _ h] at hgt
            rw [setFlag_other _ _ _ _ h]
            exact hGW t hgt
        · intro t hts hwt hgt
          rw [hw1] at hwt
          rw [hg1] at hgt
          rw [hb1]
          by_cases h : t = s
          · subst h
            rw [setFlag_same] at hgt
            cases hgt
          · rw [setFlag_other _ _ _ _ h] at hwt
            rw [setFlag_other _ _ _ _ h] at hgt
            exact hCol t hts hwt hgt
        · intro t hbt
          rw [hb1] at hbt
          exact hNC t hbt
        · intro t hwt
          rw [hw1] at hwt
          by_cases h : t = s
          · subst h
            rw [setFlag_same] at hwt
            cases hwt
          · rw [setFlag_other _ _ _ _ h] at hwt
            exact hWS t hwt
        · intro t hwt
          rw [hw1] at hwt
          rw [hb1]
          by_cases h : t = s
          · subst h
            rw [setFlag_same] at hwt
            cases hwt
          · rw [setFlag_other _ _ _ _ h] at hwt
            exact hWB t hwt
      have hgray1 : st1.gray s = true := setFlag_same _ _ _
      have hgpath1 : ∀ g, st1.gray g = true → Relation.ReflTransGen (EdgeRel edges) g s := by
        intro g hg1x
        by_cases h : g = s
        · subst h; exact Relation.ReflTransGen.refl
        · rw [hg1, setFlag_other _ _ _ _ h] at hg1x
          exact hgpath g hg1x
      have hfuel1 : services.countP st1.white < fuel := by
        have hdec := countP_setFlag_false_lt services st.white s hs_serv hws
        have heq : services.countP st1.white = services.countP (setFlag st.white s false) := rfl
        omega
      have hns : ∀ n ∈ graphOf edges s, EdgeRel edges s n := fun n hn => mem_graphOf.mp hn
      have hnbr := dfsNeighbors_spec edges services fuel hTarg ih s (graphOf edges s) st1
        hns hinv1 hgray1 hgpath1 hfuel1
      simp only [dfsVisit]
      cases hn : dfsNeighbors (dfsVisit (graphOf edges) fuel) s (graphOf edges s) st1 with
      | error e =>
          rw [hn] at hnbr
          dsimp only
          exact hnbr
      | ok st2 =>
          rw [hn] at hnbr
          obtain ⟨hinv2, hbmono2, hwanti2, hgeq2, hallb2⟩ := hnbr
          obtain ⟨h2GB, h2GW, h2Col, h2NC, h2WS, h2WB⟩ := hinv2
          dsimp only
          have hgs2 : st2.gray s = true := (hgeq2 s).trans hgray1
          have hNCs : ¬ Relation.TransGen (EdgeRel edges) s s := by
            intro hcyc
            obtain ⟨c, hsc, hcs⟩ := Relation.TransGen.head'_iff.mp hcyc
            have hcb : st2.black c = true := hallb2 c (mem_graphOf.mpr hsc)
            exact h2NC c hcb (Relation.TransGen.tail' hcs hsc)
          set stf : DfsState :=
            { st2 with gray := setFlag st2.gray s false,
                       black := setFlag st2.black s true } with hstf
          have hwF : ∀ u, stf.white u = st2.white u := fun _ => rfl
          have hgF : ∀ u, stf.gray u = setFlag st2.gray s false u := fun _ => rfl
          have hbF : ∀ u, stf.black u = setFlag st2.black s true u := fun _ => rfl
          refine ⟨⟨?_, ?_, ?_, ?_, ?_, ?_⟩, ?_, ?_, ?_, ?_⟩
          · intro t hgt hbt
            rw [hgF] at hgt
            rw [hbF] at hbt
            by_cases h : t = s
            · subst h
              rw [setFlag_same] at hgt
              cases hgt
            · rw [setFlag_other _ _ _ _ h] at hgt
              rw [setFlag_other _ _ _ _ h] at hbt
              exact h2GB t hgt hbt
          · intro t hgt
            rw [hgF] at hgt
            rw [hwF]
            by_cases h : t = s
            · subst h
              rw [setFlag_same] at hgt
              cases hgt
            · rw [setFlag_other _ _ _ _ h] at hgt
              exact h2GW t hgt
          · intro t hts hwt hgt
            rw [hwF] at hwt
            rw [hgF] at hgt
            rw [hbF]
            by_cases h : t = s
            · subst h
              rw [setFlag_same]
            · rw [setFlag_other _ _ _ _ h] at hgt
              rw [setFlag_other _ _ _ _ h]
              exact h2Col t hts hwt hgt
          · intro t hbt
            rw [hbF] at hbt
            by_cases h : t = s
            · subst h
              exact hNCs
            · rw [setFlag_other _ _ _ _ h] at hbt
              exact h2NC t hbt
          · intro t hwt
            rw [hwF] at hwt
            exact h2WS t hwt
          · intro t hwt
            rw [hwF] at hwt
            rw [hbF]
            by_cases h : t = s
            · subst h
              have hx : st1.white t = true := hwanti2 t hwt
              rw [hw1, setFlag_same] at hx
              cases hx
            · rw [setFlag_other _ _ _ _ h]
              exact h2WB t hwt
          · rw [setFlag_same]
          · intro t hbt
            by_cases h : t = s
            · subst h
              rw [setFlag_same]
            · rw [setFlag_other _ _ _ _ h]
              exact hbmono2 t (by rw [hb1]; exact hbt)
          · intro t hwt
            have h1 : st1.white t = true := hwanti2 t hwt
            by_cases h : t = s
            · subst h
              rw [hw1, setFlag_same] at h1
              cases h1
            · rw [hw1, setFlag_other _ _ _ _ h] at h1
              exact h1
          · intro t
            by_cases h : t = s
            · subst h
              rw [setFlag_same, hgs_false]
            · rw [setFlag_other _ _ _ _ h, hgeq2 t, hg1, setFlag_other _ _ _ _ h]

/-- Spec of the outer loop of `detectCycles`: given valid colouring with no
gray node, an error implies a cycle, and success certifies every listed
service cycle-free. -/
lemma detectCyclesLoop_spec (edges : List (String × String)) (services : List String)
    (hTarg : ∀ e ∈ edges, e.2 ∈ services) :
    ∀ (l : List String) (st : DfsState),
      l ⊆ services →
      StInv services edges st →
      (∀ t, st.gray t = false) →
      (match detectCyclesLoop (graphOf edges) (services.length + 1) l st with
       | .ok _ => ∀ x ∈ l, ¬ Relation.TransGen (EdgeRel edges) x x
       | .error _ => ∃ x, Relation.TransGen (EdgeRel edges) x x) := by
  intro l
  induction l with
  | nil =>
      intro st _ _ _
      simp [detectCyclesLoop]
  | cons x rest ih =>
      intro st hsub hinv hgray
      simp only [detectCyclesLoop]
      by_cases hw : st.white x = true
      · rw [if_pos hw]
        have hfuel : services.countP st.white < services.length + 1 :=
          Nat.lt_succ_of_le (List.countP_le_length _)
        have hspec := dfsVisit_spec edges services hTarg (services.length + 1) x st hfuel
          hinv hw (fun g hg => absurd hg (by simp [hgray g]))
        cases hv : dfsVisit (graphOf edges) (services.length + 1) x st with
        | error e =>
            rw [hv] at hspec
            dsimp only
            exact hspec
        | ok st1 =>
            rw [hv] at hspec
            obtain ⟨hinv1, hbx, _, _, hgeq⟩ := hspec
            have hgray1 : ∀ t, st1.gray t = false := fun t => (hgeq t).trans (hgray t)
            have hrec := ih st1 (fun y hy => hsub (by simp [hy])) hinv1 hgray1
            dsimp only
            cases hr : detectCyclesLoop (graphOf edges) (services.length + 1) rest st1 with
            | error e =>
                rw [hr] at hrec
                exact hrec
            | ok u =>
                rw [hr] at hrec
                intro y hy
                rcases List.mem_cons.mp hy with rfl | hy'
                · exact hinv1.2.2.2.1 y hbx
                · exact hrec y hy'
      · rw [if_neg hw]
        have hxb : st.black x = true :=
          hinv.2.2.1 x (hsub (by simp)) (by simpa using hw) (hgray x)
        have hNCx := hinv.2.2.2.1 x hxb
        have hrec := ih st (fun y hy => hsub (by simp [hy])) hinv hgray
        cases hr : detectCyclesLoop (graphOf edges) (services.length + 1) rest st with
        | error e =>
            rw [hr] at hrec
            exact hrec
        | ok u =>
            rw [hr] at hrec
            intro y hy
            rcases List.mem_cons.mp hy with rfl | hy'
            · exact hNCx
            · exact hrec y hy'

lemma initial_StInv (edges : List (String × String)) (services : List String) :
    StInv services edges (initialDfsState services) := by
  refine ⟨?_, ?_, ?_, ?_, ?_, ?_⟩
  · intro s h; simp [initialDfsState] at h
  · intro s h; simp [initialDfsState] at h
  · intro s hs hw _
    simp [initialDfsState, hs] at hw
  · intro s h; simp [initialDfsState] at h
  · intro s h; simpa [initialDfsState] using h
  · intro s _; simp [initialDfsState]

/-- Completeness direction: if `detectCycles` accepts, the graph is
acyclic (every cycle must start at an edge source, which is a service). -/
lemma acyclic_of_detectCycles_ok (edges : List (String × String)) (services : List String)
    (hTarg : ∀ e ∈ edges, e.2 ∈ services) (hSrc : ∀ e ∈ edges, e.1 ∈ services)
    (hok : detectCycles services edges = .ok ()) : Acyclic edges := by
  intro x hcyc
  have hspec := detectCyclesLoop_spec edges services hTarg services (initialDfsState services)
    (fun y hy => hy) (initial_StInv edges services) (fun _ => rfl)
  rw [detectCycles] at hok
  rw [hok] at hspec
  obtain ⟨c, hxc, _⟩ := Relation.TransGen.head'_iff.mp hcyc
  exact hspec x (hSrc (x, c) hxc) hcyc

/-- Soundness direction: on an acyclic graph `detectCycles` accepts. -/
lemma detectCycles_ok_of_acyclic (edges : List (String × String)) (services : List String)
    (hTarg : ∀ e ∈ edges, e.2 ∈ services) (hacyc : Acyclic edges) :
    detectCycles services edges = .ok () := by
  have hspec := detectCyclesLoop_spec edges services hTarg services (initialDfsState services)
    (fun y hy => hy) (initial_StInv edges services) (fun _ => rfl)
  rw [detectCycles]
  cases h : detectCyclesLoop (graphOf edges) (services.length + 1) services
      (initialDfsState services) with
  | ok u => cases u; rfl
  | error e =>
      rw [h] at hspec
      obtain ⟨x, hx⟩ := hspec
      exact absurd hx (hacyc x)

/-! ## Resolver-level lemmas -/

lemma keysOf_initRemaining (services : List String) (edges : List (String × String)) :
    keysOf (initRemaining services edges) = services := by
  unfold keysOf initRemaining
  rw [List.map_map]
  exact List.map_id services

lemma initRemaining_inv (services : List String) (edges : List (String × String))
    (hnd : services.Nodup) (hSrc : ∀ e ∈ edges, e.1 ∈ services) :
    RemInv edges (initRemaining services edges) := by
  constructor
  · rw [keysOf_initRemaining]
    exact hnd
  · intro p hp
    unfold initRemaining at hp
    obtain ⟨srv, hsrv, rfl⟩ := List.mem_map.mp hp
    rw [keysOf_initRemaining]
    have : inDegreeOf edges srv = countFromInto edges services srv := by
      unfold inDegreeOf countFromInto
      rw [← List.countP_eq_length_filter]
      apply List.countP_congr
      intro e he
      simp [hSrc e he]
    rw [this]

lemma mem_flattenGroups {s : String} : ∀ {gs : List ServiceGroup},
    s ∈ flattenGroups gs ↔ ∃ g ∈ gs, s ∈ g.Services := by
  intro gs
  induction gs with
  | nil => simp [flattenGroups]
  | cons g gs ih =>
      rw [flattenGroups_cons]
      simp only [List.mem_append, ih, List.mem_cons]
      constructor
      · rintro (h | ⟨g', hg', hs⟩)
        · exact ⟨g, Or.inl rfl, h⟩
        · exact ⟨g', Or.inr hg', hs⟩
      · rintro ⟨g', rfl | hg', hs⟩
        · exact Or.inl hs
        · exact Or.inr ⟨g', hg', hs⟩

lemma countP_groups_eq_one : ∀ (gs : List ServiceGroup) (s : String),
    (flattenGroups gs).Nodup → s ∈ flattenGroups gs →
    gs.countP (fun g => decide (s ∈ g.Services)) = 1 := by
  intro gs
  induction gs with
  | nil => intro s _ hmem; simp [flattenGroups] at hmem
  | cons g gs ih =>
      intro s hnd hmem
      rw [flattenGroups_cons] at hnd hmem
      rw [List.countP_cons]
      have hdisj := (List.nodup_append.mp hnd).2.2
      rcases List.mem_append.mp hmem with hg | hg'
      · have hnot : s ∉ flattenGroups gs := fun hh => hdisj hg hh
        have h0 : gs.countP (fun g => decide (s ∈ g.Services)) = 0 := by
          rw [List.countP_eq_zero]
          intro g' hg'mem
          simp only [decide_eq_true_eq]
          intro hsg'
          exact hnot (mem_flattenGroups.mpr ⟨g', hg'mem, hsg'⟩)
        simp [h0, hg]
      · have h1 := ih s (List.nodup_append.mp hnd).2.1 hg'
        have hnot : s ∉ g.Services := fun hh => hdisj hh hg'
        simp [h1, hnot]

lemma acyclic_single (a b : String) (hab : a ≠ b) : Acyclic [(a, b)] := by
  intro x hcyc
  rcases Relation.TransGen.head'_iff.mp hcyc with ⟨c, hxc, hcx⟩
  rw [EdgeRel] at hxc
  simp only [List.mem_singleton, Prod.mk.injEq] at hxc
  obtain ⟨rfl, rfl⟩ := hxc
  rcases Relation.ReflTransGen.cases_head hcx with h | ⟨d, hcd, _⟩
  · exact hab h.symm
  · rw [EdgeRel] at hcd
    simp only [List.mem_singleton, Prod.mk.injEq] at hcd
    exact hab hcd.1.symm

/-- Assembled success of `ResolveDependencies` on well-formed acyclic
input, with all structural properties of the result. -/
lemma resolve_ok_of_acyclic (services deps : List String) (hnd : services.Nodup)
    (hwf : DepsWellFormed services deps) (hacyc : Acyclic (depEdges deps)) :
    ∃ gs, ResolveDependencies services deps = .ok gs ∧
      (flattenGroups gs).Perm services ∧
      (flattenGroups gs).Nodup ∧
      (∀ g ∈ gs, g.Services ≠ []) ∧
      (∀ a b, (a, b) ∈ depEdges deps →
        (flattenGroups gs).indexOf a < (flattenGroups gs).indexOf b) := by
  have hends := depEdges_endpoints hwf
  have hTarg : ∀ e ∈ depEdges deps, e.2 ∈ services := fun e he => (hends e he).2
  have hSrc : ∀ e ∈ depEdges deps, e.1 ∈ services := fun e he => (hends e he).1
  obtain ⟨gs, hok, hperm, hnodup, hne, hord⟩ :=
    topoLoop_ok_of_acyclic (depEdges deps) hacyc (initRemaining services (depEdges deps)).length
      (initRemaining services (depEdges deps)) 0 [] (le_refl _)
      (initRemaining_inv services (depEdges deps) hnd hSrc)
  rw [keysOf_initRemaining] at hperm hord
  refine ⟨gs, ?_, hperm, hnodup, hne, ?_⟩
  · rw [ResolveDependencies, buildEdges_eq_ok deps hwf]
    dsimp only
    rw [detectCycles_ok_of_acyclic (depEdges deps) services hTarg hacyc]
    dsimp only
    rw [topologicalSort, hok]
    simp
  · intro a b hab
    exact hord a b hab (hSrc (a, b) hab) (hTarg (a, b) hab)

/-! ## Claim theorems: dependency resolver -/

/-- C1: for every set of services and every constraint list whose parsed
edges form an acyclic graph over those services, `ResolveDependencies`
succeeds, and the concatenation of its levels in order
(`GetExecutionOrder`) is a permutation of all service names in which, for
every constraint `"a -> b"`, the position of `a` is strictly before the
position of `b`; each service appears in exactly one level. -/
theorem c1_acyclic_resolution_order
    (services deps : List String) (hnd : services.Nodup)
    (hwf : DepsWellFormed services deps)
    (hacyc : Acyclic (depEdges deps)) :
    ∃ groups order,
      ResolveDependencies services deps = .ok groups ∧
      GetExecutionOrder services deps = .ok order ∧
      order = flattenGroups groups ∧
      order.Perm services ∧
      (∀ dep ∈ deps, ∀ a b, parseDependency dep = [a, b] →
        order.indexOf a < order.indexOf b) ∧
      (∀ s ∈ services, groups.countP (fun g => decide (s ∈ g.Services)) = 1) := by
  obtain ⟨gs, hok, hperm, hnodup, hne, hord⟩ :=
    resolve_ok_of_acyclic services deps hnd hwf hacyc
  refine ⟨gs, flattenGroups gs, hok, ?_, rfl, hperm, ?_, ?_⟩
  · rw [GetExecutionOrder, hok]
  · intro dep hdep a b hp
    apply hord
    rw [depEdges, List.mem_filterMap]
    exact ⟨dep, hdep, by rw [hp]⟩
  · intro srv hsrv
    exact countP_groups_eq_one gs srv hnodup (hperm.mem_iff.mpr hsrv)

/-- Witness for C1 at a concrete input: two services with one
constraint. -/
theorem c1_acyclic_resolution_order_witness :
    (["a", "b"] : List String).Nodup ∧
    DepsWellFormed ["a", "b"] ["a -> b"] ∧
    Acyclic (depEdges ["a -> b"]) ∧
    (∃ groups order,
      ResolveDependencies ["a", "b"] ["a -> b"] = .ok groups ∧
      GetExecutionOrder ["a", "b"] ["a -> b"] = .ok order ∧
      order = flattenGroups groups ∧
      order.Perm ["a", "b"] ∧
      (∀ dep ∈ ["a -> b"], ∀ a b, parseDependency dep = [a, b] →
        order.indexOf a < order.indexOf b) ∧
      (∀ s ∈ ["a", "b"], groups.countP (fun g => decide (s ∈ g.Services)) = 1)) := by
  have hac : Acyclic (depEdges ["a -> b"]) := by
    rw [show depEdges ["a -> b"] = [("a", "b")] from rfl]
    exact acyclic_single "a" "b" (by decide)
  exact ⟨by decide, by decide, hac,
    c1_acyclic_resolution_order ["a", "b"] ["a -> b"] (by decide) (by decide) hac⟩

/-- C2: for every constraint list whose parsed edges contain a directed
cycle over the service set — including a single self-referencing
constraint — `ResolveDependencies` returns an error (and hence produces no
levels: the Go function returns a nil slice together with the error). -/
theorem c2_cycle_resolution_error
    (services deps : List String) (hwf : DepsWellFormed services deps)
    (x : String) (hcyc : Relation.TransGen (EdgeRel (depEdges deps)) x x) :
    ∃ e, ResolveDependencies services deps = .error e := by
  have hends := depEdges_endpoints hwf
  rw [ResolveDependencies, buildEdges_eq_ok deps hwf]
  dsimp only
  cases hdc : detectCycles services (depEdges deps) with
  | ok u =>
      cases u
      have hacyc := acyclic_of_detectCycles_ok (depEdges deps) services
        (fun e he => (hends e he).2) (fun e he => (hends e he).1) hdc
      exact absurd hcyc (hacyc x)
  | error e =>
      exact ⟨e, rfl⟩

/-- Witness for C2 at a concrete input: the self-referencing constraint
`"x -> x"`. -/
theorem c2_cycle_resolution_error_witness :
    DepsWellFormed ["x"] ["x -> x"] ∧
    Relation.TransGen (EdgeRel (depEdges ["x -> x"])) "x" "x" ∧
    (∃ e, ResolveDependencies ["x"] ["x -> x"] = .error e) := by
  have hcyc : Relation.TransGen (EdgeRel (depEdges ["x -> x"])) "x" "x" :=
    Relation.TransGen.single (by unfold EdgeRel; decide)
  exact ⟨by decide, hcyc, c2_cycle_resolution_error ["x"] ["x -> x"] (by decide) "x" hcyc⟩

/-- C7 counterexample: `"a ->b"` does not have the claimed form
`"a -> b"` (one space on each side of the arrow, tolerant only of extra
surrounding whitespace): there is no space after the arrow.  The claim says
such a string must fail with a format error, but the parser splits it into
`["a", "b"]` and resolution succeeds. -/
theorem c7_counterexample :
    parseDependency "a ->b" = ["a", "b"] ∧
    ResolveDependencies ["a", "b"] ["a ->b"] =
      .ok [⟨["a"], 0⟩, ⟨["b"], 1⟩] := ⟨by decide, by decide⟩

/-- C7 (amended): the parser splits a dependency string at each occurrence
of `" ->"` that is followed by at least one character, then skips any run
of spaces; a string that does not split into exactly two parts makes
`ResolveDependencies` fail with a format error naming the string, a
two-part split is accepted exactly when both (trimmed) parts are known
services, and a canonical string `"f -> t"` with nonempty whitespace-free
names parses to `[f, t]`. -/
theorem c7_amended_parser_characterization :
    (∀ (services : List String) (dep : String), (parseDependency dep).length ≠ 2 →
      buildEdges services [dep] = .error ("invalid dependency format: " ++ dep ++
        " (expected format: \x27service1 -> service2\x27)")) ∧
    (∀ (services : List String) (dep f t : String), parseDependency dep = [f, t] →
      f ∈ services → t ∈ services → buildEdges services [dep] = .ok [(f, t)]) ∧
    (∀ f t : List Char, f ≠ [] → t ≠ [] →
      (∀ c ∈ f, ¬ isTrimSpace c = true) → (∀ c ∈ t, ¬ isTrimSpace c = true) →
      parseDependency (String.mk (f ++ (' ' :: '-' :: '>' :: ' ' :: t))) =
        [String.mk f, String.mk t]) := by
  refine ⟨?_, ?_, parseDependency_canonical⟩
  · intro services dep hlen
    match hp : parseDependency dep with
    | [f, t] => rw [hp] at hlen; simp at hlen
    | [] => simp [buildEdges, hp]
    | [x] => simp [buildEdges, hp]
    | x :: y :: z :: w => simp [buildEdges, hp]
  · intro services dep f t hp hf ht
    simp [buildEdges, hp, hf, ht]

/-- Witness for C7's amended characterization at concrete inputs. -/
theorem c7_amended_witness :
    buildEdges ["a"] ["nonsense"] = .error ("invalid dependency format: nonsense" ++
      " (expected format: \x27service1 -> service2\x27)") ∧
    buildEdges ["a", "b"] ["a -> b"] = .ok [("a", "b")] ∧
    parseDependency "a -> b" = ["a", "b"] := by
  refine ⟨?_, ?_, ?_⟩
  · have h := c7_amended_parser_characterization.1 ["a"] "nonsense" (by decide)
    simpa using h
  · exact c7_amended_parser_characterization.2.1 ["a", "b"] "a -> b" "a" "b"
      (by decide) (by decide) (by decide)
  · exact c7_amended_parser_characterization.2.2 ['a'] ['b']
      (by decide) (by decide) (by decide) (by decide)

/-- C8: whenever `detectCycles` succeeds on the built graph, the
"no services with zero in-degree" error branch of `topologicalSort` is
unreachable: the sort terminates successfully and assigns every service to
a level (the flattened levels are a permutation of the services). -/
theorem c8_detect_ok_topo_total (services : List String) (edges : List (String × String))
    (hnd : services.Nodup)
    (hTarg : ∀ e ∈ edges, e.2 ∈ services) (hSrc : ∀ e ∈ edges, e.1 ∈ services)
    (hok : detectCycles services edges = .ok ()) :
    ∃ gs, topologicalSort edges (initRemaining services edges) = .ok gs ∧
      (flattenGroups gs).Perm services := by
  have hacyc := acyclic_of_detectCycles_ok edges services hTarg hSrc hok
  obtain ⟨gs, hok2, hperm, _, _, _⟩ := topoLoop_ok_of_acyclic edges hacyc
    (initRemaining services edges).length (initRemaining services edges) 0 [] (le_refl _)
    (initRemaining_inv services edges hnd hSrc)
  rw [keysOf_initRemaining] at hperm
  refine ⟨gs, ?_, hperm⟩
  rw [topologicalSort, hok2]
  simp

/-- Witness for C8 at a concrete input. -/
theorem c8_detect_ok_topo_total_witness :
    (["a", "b"] : List String).Nodup ∧
    detectCycles ["a", "b"] [("a", "b")] = .ok () ∧
    (∃ gs, topologicalSort [("a", "b")] (initRemaining ["a", "b"] [("a", "b")]) = .ok gs ∧
      (flattenGroups gs).Perm ["a", "b"]) := by
  refine ⟨by decide, by decide, ?_⟩
  exact c8_detect_ok_topo_total ["a", "b"] [("a", "b")] (by decide)
    (by decide) (by decide) (by decide)

/-! ## Claim theorems: hook gate -/

lemma validate_rejects_of_pattern (c p : String) (hp : p ∈ dangerousPatterns)
    (hinf : p.data <:+: c.data.map Char.toLower) :
    (ValidateHookCommand c).isSome = true := by
  by_cases h1 : c = ""
  · simp [ValidateHookCommand, h1]
  by_cases h2 : c.utf8ByteSize > 1000
  · simp [ValidateHookCommand, h1, h2]
  cases hf : dangerousPatterns.find?
      (fun q => decide (q.data <:+: c.data.map Char.toLower)) with
  | some q => simp [ValidateHookCommand, h1, h2, hf]
  | none =>
      rw [List.find?_eq_none] at hf
      exact absurd (by simpa using hinf) (by simpa using hf p hp)

lemma validate_rejects_of_unsafe_char (c : String) (ch : Char) (hch : ch ∈ c.data)
    (hbadch : safeChar ch = false) : (ValidateHookCommand c).isSome = true := by
  by_cases h1 : c = ""
  · simp [ValidateHookCommand, h1]
  by_cases h2 : c.utf8ByteSize > 1000
  · simp [ValidateHookCommand, h1, h2]
  cases hf : dangerousPatterns.find?
      (fun q => decide (q.data <:+: c.data.map Char.toLower)) with
  | some q => simp [ValidateHookCommand, h1, h2, hf]
  | none =>
      have hall : c.data.all safeChar = false := by
        rw [List.all_eq_false]
        exact ⟨ch, hch, by simp [hbadch]⟩
      simp [ValidateHookCommand, h1, h2, hf, hall]

/-- C4 counterexample: `"curl a"` contains the remote-fetch utility name
`"curl"`, which the claim says is always rejected, yet the gate accepts it:
the denylist entry is `";curl"`, so a `curl` command not preceded by a
semicolon passes (likewise `sudo`/`eval`/`exec` are denied only with a
trailing space). -/
theorem c4_counterexample :
    ("curl".data <:+: ("curl a".data.map Char.toLower)) ∧
    ValidateHookCommand "curl a" = none := ⟨by decide, by decide⟩

/-- C4 (amended): the gate rejects the empty string, any command longer
than 1000 bytes, any command containing (case-insensitively) a backtick,
`"$("`, `"&&"`, `"||"`, any `\x26` at all (hence a trailing one), any
`\x7c` at all (hence a pipe into `sh`/`bash`), `"wget"`, `"sudo "`,
`"eval "`, `"exec "` (with the trailing space) or `";curl"` (with the
semicolon); and it accepts every other non-empty command of at most 1000
bytes whose characters all lie in the safe class and which contains none
of the sixteen denylist substrings. -/
theorem c4_amended_hook_gate :
    ValidateHookCommand "" = some "hook command cannot be empty" ∧
    (∀ c : String, c.utf8ByteSize > 1000 → (ValidateHookCommand c).isSome = true) ∧
    (∀ c : String, '\x60' ∈ c.data → (ValidateHookCommand c).isSome = true) ∧
    (∀ c : String, "$(".data <:+: c.data.map Char.toLower →
      (ValidateHookCommand c).isSome = true) ∧
    (∀ c : String, "&&".data <:+: c.data.map Char.toLower →
      (ValidateHookCommand c).isSome = true) ∧
    (∀ c : String, "||".data <:+: c.data.map Char.toLower →
      (ValidateHookCommand c).isSome = true) ∧
    (∀ c : String, '&' ∈ c.data → (ValidateHookCommand c).isSome = true) ∧
    (∀ c : String, '|' ∈ c.data → (ValidateHookCommand c).isSome = true) ∧
    (∀ c : String, "wget".data <:+: c.data.map Char.toLower →
      (ValidateHookCommand c).isSome = true) ∧
    (∀ c : String, "sudo ".data <:+: c.data.map Char.toLower →
      (ValidateHookCommand c).isSome = true) ∧
    (∀ c : String, "eval ".data <:+: c.data.map Char.toLower →
      (ValidateHookCommand c).isSome = true) ∧
    (∀ c : String, "exec ".data <:+: c.data.map Char.toLower →
      (ValidateHookCommand c).isSome = true) ∧
    (∀ c : String, ";curl".data <:+: c.data.map Char.toLower →
      (ValidateHookCommand c).isSome = true) ∧
    (∀ c : String, c ≠ "" → c.utf8ByteSize ≤ 1000 →
      (∀ p ∈ dangerousPatterns, ¬ (p.data <:+: c.data.map Char.toLower)) →
      c.data.all safeChar = true → ValidateHookCommand c = none) := by
  refine ⟨rfl, ?_, ?_, ?_, ?_, ?_, ?_, ?_, ?_, ?_, ?_, ?_, ?_, ?_⟩
  · intro c h
    by_cases h1 : c = ""
    · subst h1; exact absurd h (by decide)
    · simp [ValidateHookCommand, h1, h]
  · intro c hch
    apply validate_rejects_of_unsafe_char c _ hch
    decide
  · intro c h; exact validate_rejects_of_pattern c "$(" (by decide) h
  · intro c h; exact validate_rejects_of_pattern c "&&" (by decide) h
  · intro c h; exact validate_rejects_of_pattern c "||" (by decide) h
  · intro c hch
    apply validate_rejects_of_unsafe_char c _ hch
    decide
  · intro c hch
    apply validate_rejects_of_unsafe_char c _ hch
    decide
  · intro c h; exact validate_rejects_of_pattern c "wget" (by decide) h
  · intro c h; exact validate_rejects_of_pattern c "sudo " (by decide) h
  · intro c h; exact validate_rejects_of_pattern c "eval " (by decide) h
  · intro c h; exact validate_rejects_of_pattern c "exec " (by decide) h
  · intro c h; exact validate_rejects_of_pattern c ";curl" (by decide) h
  · intro c h1 h2 h3 h4
    have hf : dangerousPatterns.find?
        (fun q => decide (q.data <:+: c.data.map Char.toLower)) = none := by
      rw [List.find?_eq_none]
      intro p hp
      simpa using h3 p hp
    simp [ValidateHookCommand, h1, Nat.not_lt.mpr h2, hf, h4]

set_option maxRecDepth 40000 in
/-- Witness for C4's amended characterization at concrete inputs. -/
theorem c4_amended_witness :
    (ValidateHookCommand (String.mk (List.replicate 1001 'a'))).isSome = true ∧
    (ValidateHookCommand "a && b").isSome = true ∧
    (ValidateHookCommand "wget x").isSome = true ∧
    ValidateHookCommand "echo hello" = none := by
  refine ⟨?_, ?_, ?_, ?_⟩
  · exact c4_amended_hook_gate.2.1 _ (by decide)
  · exact c4_amended_hook_gate.2.2.2.2.1 "a && b" (by decide)
  · exact c4_amended_hook_gate.2.2.2.2.2.2.2.2.1 "wget x" (by decide)
  · exact c4_amended_hook_gate.2.2.2.2.2.2.2.2.2.2.2.2.2 "echo hello"
      (by decide) (by decide) (by decide) (by decide)

/-! ## Orchestrator step lemmas -/

lemma selectConfig_eq_none_of_unknown (name : String) (cfg : ServiceConfig)
    (h : ¬ name ∈ knownServiceNames) : selectConfig name cfg = none := by
  simp only [knownServiceNames, List.mem_cons, List.mem_singleton, not_or] at h
  obtain ⟨h1, h2, h3, h4, h5, h6⟩ := h
  simp [selectConfig, h1, h2, h3, h4, h5, h6]

lemma executeHooksLoop_events {σ : Type} (shell : String → Option String) (hookType : String) :
    ∀ (i : Nat) (hooks : List Hook),
      ∀ ev ∈ (@executeHooksLoop σ shell hookType i hooks).1,
        eventServiceName ev = none ∧ isRollbackEvent ev = false := by
  intro i hooks
  induction hooks generalizing i with
  | nil => intro ev hev; simp [executeHooksLoop] at hev
  | cons hook rest ih =>
      intro ev hev
      simp only [executeHooksLoop] at hev
      cases hh : @executeHook σ shell hook (hookType ++ "-" ++ toString i) with
      | mk evs1 r1 =>
          have hevs1 : ∀ e ∈ evs1, eventServiceName e = none ∧ isRollbackEvent e = false := by
            intro e he
            unfold executeHook at hh
            cases hv : ValidateHookCommand hook.Command with
            | some msg => rw [hv] at hh; injection hh with h1 h2; subst h1; simp at he
            | none =>
                rw [hv] at hh
                cases hs : shell hook.Command with
                | some msg =>
                    rw [hs] at hh; injection hh with h1 h2; subst h1
                    simp at he; subst he; exact ⟨rfl, rfl⟩
                | none =>
                    rw [hs] at hh; injection hh with h1 h2; subst h1
                    simp at he; subst he; exact ⟨rfl, rfl⟩
          rw [hh] at hev
          cases r1 with
          | some e =>
              dsimp only at hev
              by_cases hc : hook.OnError = "continue"
              · rw [if_pos hc] at hev
                cases hrest : executeHooksLoop shell hookType (i + 1) rest with
                | mk evs2 r2 =>
                    rw [hrest] at hev
                    dsimp only at hev
                    rcases List.mem_append.mp hev with h | h
                    · exact hevs1 ev h
                    · have := ih (i + 1) ev
                      rw [hrest] at this
                      exact this h
              · rw [if_neg hc] at hev
                dsimp only at hev
                exact hevs1 ev hev
          | none =>
              dsimp only at hev
              cases hrest : executeHooksLoop shell hookType (i + 1) rest with
              | mk evs2 r2 =>
                  rw [hrest] at hev
                  dsimp only at hev
                  rcases List.mem_append.mp hev with h | h
                  · exact hevs1 ev h
                  · have := ih (i + 1) ev
                    rw [hrest] at this
                    exact this h

lemma rollbackServices_spec {σ : Type} (switchers : List (String × ServiceSwitcher σ))
    (ps : List (String × σ)) (res : SwitchResult) :
    (rollbackServices switchers ps res).1.RollbackPerformed = true ∧
    (rollbackServices switchers ps res).1.Success = res.Success ∧
    countRollbackErrors (rollbackServices switchers ps res).1 ≤
      countRollbackErrors res + 1 ∧
    (rollbackServices switchers ps res).2 = (rollbackLoop switchers ps).2 := by
  unfold rollbackServices
  cases hrl : rollbackLoop switchers ps with
  | mk errs evs =>
      dsimp only
      by_cases he : errs.isEmpty
      · rw [if_pos he]
        exact ⟨rfl, rfl, Nat.le_succ_of_le (Nat.le_refl _), rfl⟩
      · rw [if_neg he]
        refine ⟨rfl, rfl, ?_, rfl⟩
        unfold countRollbackErrors
        dsimp only
        rw [List.countP_append]
        simp

lemma mem_rollbackLoop_events {σ : Type} (sw : List (String × ServiceSwitcher σ))
    (name : String) (st0 : σ) :
    ∀ (ps : List (String × σ)), (name, st0) ∈ ps → (sw.lookup name).isSome = true →
      SwitchEvent.rollbackCall name st0 ∈ (rollbackLoop sw ps).2 := by
  intro ps
  induction ps with
  | nil => intro h _; simp at h
  | cons p rest ih =>
      intro hmem hreg
      obtain ⟨n, prev⟩ := p
      simp only [rollbackLoop]
      rcases List.mem_cons.mp hmem with heq | htail
      · injection heq with h1 h2
        subst h1; subst h2
        cases hl : sw.lookup name with
        | none => rw [hl] at hreg; simp at hreg
        | some swr =>
            cases hr : swr.rollbackResult st0 with
            | some e =>
                dsimp only
                cases hrl : rollbackLoop sw rest with
                | mk errs evs => rw [hr]; simp
            | none =>
                dsimp only
                cases hrl : rollbackLoop sw rest with
                | mk errs evs => rw [hr]; simp
      · have ihr := ih htail hreg
        cases hl : sw.lookup n with
        | none =>
            dsimp only
            cases hrl : rollbackLoop sw rest with
            | mk errs evs =>
                rw [hrl] at ihr
                dsimp only at ihr ⊢
                exact ihr
        | some swr =>
            cases hr : swr.rollbackResult prev with
            | some e =>
                dsimp only
                cases hrl : rollbackLoop sw rest with
                | mk errs evs =>
                    rw [hrl] at ihr
                    rw [hr]
                    dsimp only at ihr ⊢
                    exact List.mem_cons_of_mem _ ihr
            | none =>
                dsimp only
                cases hrl : rollbackLoop sw rest with
                | mk errs evs =>
                    rw [hrl] at ihr
                    rw [hr]
                    dsimp only at ihr ⊢
                    exact List.mem_cons_of_mem _ ihr

/-- C10: a scheduled service whose name is not one of the six known service
types fails with an "unknown service type" error even when a switcher is
registered for it and a configuration entry exists — but only after
`GetCurrentState` has run and its state has been recorded in the
captured-state map, so a subsequent rollback sweep over that map invokes
`Rollback` on the untouched service. -/
theorem c10_unknown_type_after_capture {σ : Type}
    (sw : List (String × ServiceSwitcher σ)) (env : Environment) (name : String)
    (ps : List (String × σ)) (res : SwitchResult) (options : SwitchOptions)
    (switcher : ServiceSwitcher σ) (cfg : ServiceConfig) (st0 : σ)
    (hunk : ¬ name ∈ knownServiceNames)
    (hreg : sw.lookup name = some switcher)
    (hcfg : env.Services.lookup name = some cfg)
    (hst : switcher.getCurrentState = .ok st0) :
    switchSingleService sw env name ps res options =
      (ps ++ [(name, st0)], res, [SwitchEvent.getState name],
       some ("unknown service type: " ++ name)) ∧
    SwitchEvent.rollbackCall name st0 ∈
      (rollbackServices sw (ps ++ [(name, st0)]) res).2 := by
  constructor
  · unfold switchSingleService
    rw [hreg]
    dsimp only
    rw [hcfg]
    dsimp only
    rw [hst]
    dsimp only
    rw [selectConfig_eq_none_of_unknown name cfg hunk]
  · have hrs := (rollbackServices_spec sw (ps ++ [(name, st0)]) res).2.2.2
    rw [hrs]
    exact mem_rollbackLoop_events sw name st0 (ps ++ [(name, st0)]) (by simp)
      (by rw [hreg]; rfl)

theorem c10_unknown_type_after_capture_witness :
    ¬ "redis" ∈ knownServiceNames ∧
    ([("redis", okSwitcher)].lookup "redis") = some okSwitcher ∧
    (switchSingleService [("redis", okSwitcher)]
        { Name := "e", Services := [("redis", awsCfg)] } "redis" [] 
        { Success := true, SwitchedServices := [], FailedServices := [], Errors := [] }
        {} =
      ([("redis", ())],
       { Success := true, SwitchedServices := [], FailedServices := [], Errors := [] },
       [SwitchEvent.getState "redis"], some ("unknown service type: " ++ "redis")) ∧
    SwitchEvent.rollbackCall "redis" () ∈
      (rollbackServices [("redis", okSwitcher)] [("redis", ())]
        { Success := true, SwitchedServices := [], FailedServices := [],
          Errors := [] }).2) := by
  refine ⟨by decide, rfl, ?_⟩
  have h := c10_unknown_type_after_capture [("redis", okSwitcher)]
    { Name := "e", Services := [("redis", awsCfg)] } "redis" []
    { Success := true, SwitchedServices := [], FailedServices := [], Errors := [] }
    {} okSwitcher awsCfg () (by decide) rfl rfl rfl
  simpa using h

/-- C5 counterexample: a validation failure (empty environment name) makes
`SwitchEnvironment` return a nil result together with the terminal error,
so no `SwitchResult.Errors` list is populated — contradicting the claim
that every failure surfaces its error in a returned result. -/
theorem c5_counterexample :
    (@SwitchEnvironment Unit [] noShell false 0 zeroClock
        { Name := "", Services := [("aws", awsCfg)] } {}).err =
      some "environment validation failed: environment name is required" ∧
    (@SwitchEnvironment Unit [] noShell false 0 zeroClock
        { Name := "", Services := [("aws", awsCfg)] } {}).result = none := by
  constructor
  · rfl
  · rfl

/-- C5 amended: how each failure of `SwitchEnvironment` is surfaced.  A
validation failure and a dependency-resolution failure return a NIL result
carrying only the terminal error (no `Errors` list exists); a pre-hook
failure returns a result whose `Errors` list is exactly the "pre-hook"
record.  During level execution, `switchSingleService` appends an error
record (naming the failing service) only when a `Switch` application
fails — any other step leaves `Errors` exactly as it was; in particular the
four mid-run precondition failures (no registered switcher, missing
configuration entry, failed state capture, unknown service type) return
the running result unchanged and surface only as the terminal error. -/
theorem c5_amended_error_surfacing {σ : Type} (sw : List (String × ServiceSwitcher σ))
    (shell : String → Option String) (hasCallback : Bool) (startTime : ℚ)
    (clock : Nat → ℚ) (env : Environment) (options : SwitchOptions) :
    (∀ e, env.Validate = some e →
      SwitchEnvironment sw shell hasCallback startTime clock env options =
        ⟨none, some ("environment validation failed: " ++ e), [], [], []⟩) ∧
    (∀ e, env.Validate = none →
      GetParallelGroups (env.Services.map (·.1)) env.Dependencies = .error e →
      SwitchEnvironment sw shell hasCallback startTime clock env options =
        ⟨none, some ("dependency resolution failed: " ++ e), [], [], []⟩) ∧
    (∀ groups evs e, env.Validate = none →
      GetParallelGroups (env.Services.map (·.1)) env.Dependencies = .ok groups →
      @executeHooksLoop σ shell "pre-hook" 0 env.PreHooks = (evs, some e) →
      SwitchEnvironment sw shell hasCallback startTime clock env options =
        ⟨some { Success := false, SwitchedServices := [], FailedServices := [],
                Duration := clock 0, Errors := [⟨"pre-hook", e, 0⟩] },
         some e, evs, [], []⟩) ∧
    (∀ name ps res opts psO resO evsO errO,
      switchSingleService sw env name ps res opts = (psO, resO, evsO, errO) →
      resO.Errors = res.Errors ∨
      ∃ e', resO.Errors = res.Errors ++ [⟨name, e', 0⟩] ∧
        resO.FailedServices = res.FailedServices ++ [name] ∧
        errO = some ("failed to switch " ++ name ++ ": " ++ e')) ∧
    (∀ name ps res opts, sw.lookup name = none →
      switchSingleService sw env name ps res opts =
        (ps, res, [], some ("no switcher registered for service: " ++ name))) ∧
    (∀ name ps res opts switcher, sw.lookup name = some switcher →
      env.Services.lookup name = none →
      switchSingleService sw env name ps res opts =
        (ps, res, [], some ("service configuration not found: " ++ name))) ∧
    (∀ name ps res opts switcher cfg e, sw.lookup name = some switcher →
      env.Services.lookup name = some cfg →
      switcher.getCurrentState = .error e →
      switchSingleService sw env name ps res opts =
        (ps, res, [SwitchEvent.getState name],
         some ("failed to get current state for " ++ name ++ ": " ++ e))) ∧
    (∀ name ps res opts switcher cfg st, ¬ name ∈ knownServiceNames →
      sw.lookup name = some switcher →
      env.Services.lookup name = some cfg →
      switcher.getCurrentState = .ok st →
      switchSingleService sw env name ps res opts =
        (ps ++ [(name, st)], res, [SwitchEvent.getState name],
         some ("unknown service type: " ++ name))) := by
  refine ⟨?_, ?_, ?_, ?_, ?_, ?_, ?_, ?_⟩
  · intro e hv
    unfold SwitchEnvironment
    rw [hv]
  · intro e hv hg
    unfold SwitchEnvironment
    rw [hv]
    dsimp only
    rw [hg]
  · intro groups evs e hv hg hpre
    unfold SwitchEnvironment
    rw [hv]
    dsimp only
    rw [hg]
    dsimp only
    rw [hpre]
  · intro name ps res opts psO resO evsO errO heq
    unfold switchSingleService at heq
    cases hl : sw.lookup name with
    | none =>
        rw [hl] at heq
        simp only [Prod.mk.injEq] at heq
        exact Or.inl (by rw [← heq.2.1])
    | some switcher =>
        rw [hl] at heq
        dsimp only at heq
        cases hc : env.Services.lookup name with
        | none =>
            rw [hc] at heq
            simp only [Prod.mk.injEq] at heq
            exact Or.inl (by rw [← heq.2.1])
        | some cfg =>
            rw [hc] at heq
            dsimp only at heq
            cases hs : switcher.getCurrentState with
            | error e =>
                rw [hs] at heq
                simp only [Prod.mk.injEq] at heq
                exact Or.inl (by rw [← heq.2.1])
            | ok st =>
                rw [hs] at heq
                dsimp only at heq
                cases hsel : selectConfig name cfg with
                | none =>
                    rw [hsel] at heq
                    simp only [Prod.mk.injEq] at heq
                    exact Or.inl (by rw [← heq.2.1])
                | some c =>
                    rw [hsel] at heq
                    dsimp only at heq
                    simp only [interfaceIsNil, Bool.false_eq_true, if_false] at heq
                    by_cases hdr : opts.DryRun = true
                    · rw [if_pos hdr] at heq
                      simp only [Prod.mk.injEq] at heq
                      refine Or.inl ?_
                      rw [← heq.2.1]
                    · rw [if_neg hdr] at heq
                      cases hr : switcher.switchResult c with
                      | some e =>
                          rw [hr] at heq
                          simp only [Prod.mk.injEq] at heq
                          refine Or.inr ⟨e, ?_, ?_, ?_⟩
                          · rw [← heq.2.1]
                          · rw [← heq.2.1]
                          · rw [← heq.2.2.2]
                      | none =>
                          rw [hr] at heq
                          simp only [Prod.mk.injEq] at heq
                          refine Or.inl ?_
                          rw [← heq.2.1]
  · intro name ps res opts hl
    unfold switchSingleService
    rw [hl]
  · intro name ps res opts switcher hl hc
    unfold switchSingleService
    rw [hl]
    dsimp only
    rw [hc]
  · intro name ps res opts switcher cfg e hl hc hs
    unfold switchSingleService
    rw [hl]
    dsimp only
    rw [hc]
    dsimp only
    rw [hs]
  · intro name ps res opts switcher cfg st hunk hl hc hs
    unfold switchSingleService
    rw [hl]
    dsimp only
    rw [hc]
    dsimp only
    rw [hs]
    dsimp only
    rw [selectConfig_eq_none_of_unknown name cfg hunk]

theorem c5_amended_witness :
    ({ Name := "", Services := [("aws", awsCfg)] } : Environment).Validate =
      some "environment name is required" ∧
    @SwitchEnvironment Unit [] noShell false 0 zeroClock
        { Name := "", Services := [("aws", awsCfg)] } {} =
      ⟨none, some ("environment validation failed: " ++ "environment name is required"),
       [], [], []⟩ ∧
    ((([] : List (String × ServiceSwitcher Unit)).lookup "aws") = none ∧
      switchSingleService ([] : List (String × ServiceSwitcher Unit)) envAws "aws" []
          { Success := true, SwitchedServices := [], FailedServices := [], Errors := [] }
          {} =
        ([], { Success := true, SwitchedServices := [], FailedServices := [],
               Errors := [] },
         [], some ("no switcher registered for service: " ++ "aws"))) := by
  refine ⟨rfl,
    (c5_amended_error_surfacing [] noShell false 0 zeroClock
        { Name := "", Services := [("aws", awsCfg)] } {}).1
      "environment name is required" rfl, rfl, ?_⟩
  exact (c5_amended_error_surfacing [] noShell false 0 zeroClock envAws {}).2.2.2.2.1
    "aws" []
    { Success := true, SwitchedServices := [], FailedServices := [], Errors := [] }
    {} rfl

/-- A scheduled service for which the dry-run path of
`switchSingleService` completes: registered switcher, present configuration
entry, successful state capture, and one of the six known service types. -/
def DryReady {σ : Type} (sw : List (String × ServiceSwitcher σ)) (env : Environment)
    (name : String) : Prop :=
  ∃ switcher cfg st, sw.lookup name = some switcher ∧
    env.Services.lookup name = some cfg ∧
    switcher.getCurrentState = .ok st ∧ name ∈ knownServiceNames

lemma selectConfig_some_of_known (name : String) (cfg : ServiceConfig)
    (hk : name ∈ knownServiceNames) : ∃ c, selectConfig name cfg = some c := by
  simp only [knownServiceNames, List.mem_cons, List.mem_singleton] at hk
  rcases hk with rfl | rfl | rfl | rfl | rfl | rfl | h
  · exact ⟨_, rfl⟩
  · exact ⟨_, rfl⟩
  · exact ⟨_, rfl⟩
  · exact ⟨_, rfl⟩
  · exact ⟨_, rfl⟩
  · exact ⟨_, rfl⟩
  · simp at h

lemma isSwitchCall_false_of_no_service {σ : Type} (ev : SwitchEvent σ)
    (h : eventServiceName ev = none) : isSwitchCallEvent ev = false := by
  cases ev <;> simp [eventServiceName, isSwitchCallEvent] at h ⊢

lemma sss_dry {σ : Type} (sw : List (String × ServiceSwitcher σ)) (env : Environment)
    (name : String) (ps : List (String × σ)) (res : SwitchResult)
    (options : SwitchOptions) (hdr : options.DryRun = true)
    (switcher : ServiceSwitcher σ) (cfg : ServiceConfig) (st : σ)
    (hr : sw.lookup name = some switcher) (hc : env.Services.lookup name = some cfg)
    (hs : switcher.getCurrentState = .ok st) (hk : name ∈ knownServiceNames) :
    switchSingleService sw env name ps res options =
      (ps ++ [(name, st)],
       { res with SwitchedServices := res.SwitchedServices ++ [name] },
       [SwitchEvent.getState name], none) := by
  obtain ⟨c, hsel⟩ := selectConfig_some_of_known name cfg hk
  unfold switchSingleService
  rw [hr]
  dsimp only
  rw [hc]
  dsimp only
  rw [hs]
  dsimp only
  rw [hsel]
  dsimp only
  simp [interfaceIsNil, hdr]

lemma levelSeq_dry {σ : Type} (sw : List (String × ServiceSwitcher σ)) (env : Environment)
    (options : SwitchOptions) (hdr : options.DryRun = true) :
    ∀ (names : List String) (ps : List (String × σ)) (res : SwitchResult),
      (∀ name ∈ names, DryReady sw env name) →
      (switchLevelSeq sw env options names ps res).2.2.2 = none ∧
      (switchLevelSeq sw env options names ps res).2.1 =
        { res with SwitchedServices := res.SwitchedServices ++ names } ∧
      (switchLevelSeq sw env options names ps res).2.2.1 =
        names.map SwitchEvent.getState := by
  intro names
  induction names with
  | nil =>
      intro ps res _
      refine ⟨rfl, ?_, rfl⟩
      simp [switchLevelSeq]
  | cons name rest ih =>
      intro ps res hready
      obtain ⟨switcher, cfg, st, hr, hc, hs, hk⟩ := hready name (by simp)
      have hstep := sss_dry sw env name ps res options hdr switcher cfg st hr hc hs hk
      simp only [switchLevelSeq, hstep]
      obtain ⟨ih1, ih2, ih3⟩ := ih (ps ++ [(name, st)])
        { res with SwitchedServices := res.SwitchedServices ++ [name] }
        (fun n hn => hready n (List.mem_cons_of_mem _ hn))
      cases hrec : switchLevelSeq sw env options rest (ps ++ [(name, st)])
          { res with SwitchedServices := res.SwitchedServices ++ [name] } with
      | mk ps3 rest3 =>
          obtain ⟨res3, evs3, r3⟩ := rest3
          rw [hrec] at ih1 ih2 ih3
          dsimp only at ih1 ih2 ih3 ⊢
          refine ⟨ih1, ?_, ?_⟩
          · rw [ih2]
            simp
          · rw [ih3]
            simp

lemma levelPar_dry {σ : Type} (sw : List (String × ServiceSwitcher σ)) (env : Environment)
    (options : SwitchOptions) (hdr : options.DryRun = true) :
    ∀ (names : List String) (ps : List (String × σ)) (res : SwitchResult),
      (∀ name ∈ names, DryReady sw env name) →
      (switchLevelPar sw env options names ps res).2.2.2 = [] ∧
      (switchLevelPar sw env options names ps res).2.1 =
        { res with SwitchedServices := res.SwitchedServices ++ names } ∧
      (switchLevelPar sw env options names ps res).2.2.1 =
        names.map SwitchEvent.getState := by
  intro names
  induction names with
  | nil =>
      intro ps res _
      refine ⟨rfl, ?_, rfl⟩
      simp [switchLevelPar]
  | cons name rest ih =>
      intro ps res hready
      obtain ⟨switcher, cfg, st, hr, hc, hs, hk⟩ := hready name (by simp)
      have hstep := sss_dry sw env name ps res options hdr switcher cfg st hr hc hs hk
      simp only [switchLevelPar, hstep]
      obtain ⟨ih1, ih2, ih3⟩ := ih (ps ++ [(name, st)])
        { res with SwitchedServices := res.SwitchedServices ++ [name] }
        (fun n hn => hready n (List.mem_cons_of_mem _ hn))
      cases hrec : switchLevelPar sw env options rest (ps ++ [(name, st)])
          { res with SwitchedServices := res.SwitchedServices ++ [name] } with
      | mk ps3 rest3 =>
          obtain ⟨res3, evs3, errs3⟩ := rest3
          rw [hrec] at ih1 ih2 ih3
          dsimp only at ih1 ih2 ih3 ⊢
          refine ⟨by rw [ih1]; rfl, ?_, ?_⟩
          · rw [ih2]
            simp
          · rw [ih3]
            simp

lemma levelStep_dry {σ : Type} (sw : List (String × ServiceSwitcher σ)) (env : Environment)
    (options : SwitchOptions) (hdr : options.DryRun = true) (b : Bool)
    (names : List String) (ps : List (String × σ)) (res : SwitchResult)
    (hready : ∀ name ∈ names, DryReady sw env name) :
    (if b = true then switchServicesParallel sw env options names ps res
     else switchLevelSeq sw env options names ps res).2.2.2 = none ∧
    (if b = true then switchServicesParallel sw env options names ps res
     else switchLevelSeq sw env options names ps res).2.1 =
      { res with SwitchedServices := res.SwitchedServices ++ names } ∧
    (if b = true then switchServicesParallel sw env options names ps res
     else switchLevelSeq sw env options names ps res).2.2.1 =
      names.map SwitchEvent.getState := by
  cases b with
  | true =>
      obtain ⟨h1, h2, h3⟩ := levelPar_dry sw env options hdr names ps res hready
      simp only [if_true]
      unfold switchServicesParallel
      cases hp : switchLevelPar sw env options names ps res with
      | mk ps2 rest2 =>
          obtain ⟨res2, evs2, errs2⟩ := rest2
          rw [hp] at h1 h2 h3
          dsimp only at h1 h2 h3 ⊢
          subst h1
          exact ⟨rfl, h2, h3⟩
  | false =>
      simpa using levelSeq_dry sw env options hdr names ps res hready

lemma runLevels_dry {σ : Type} (sw : List (String × ServiceSwitcher σ)) (env : Environment)
    (options : SwitchOptions) (hasCallback : Bool) (startTime : ℚ) (clock : Nat → ℚ)
    (total : Nat) (hdr : options.DryRun = true) :
    ∀ (groups : List ServiceGroup) (completed k : Nat) (ps : List (String × σ))
      (res : SwitchResult),
      (∀ name ∈ flattenGroups groups, DryReady sw env name) →
      (runLevels sw env options hasCallback startTime clock total groups
        completed k ps res).2.2.2.2 = none ∧
      (runLevels sw env options hasCallback startTime clock total groups
        completed k ps res).2.1 =
        { res with SwitchedServices := res.SwitchedServices ++ flattenGroups groups } ∧
      (runLevels sw env options hasCallback startTime clock total groups
        completed k ps res).2.2.1 = (flattenGroups groups).map SwitchEvent.getState := by
  intro groups
  induction groups with
  | nil =>
      intro completed k ps res _
      refine ⟨rfl, ?_, rfl⟩
      simp [runLevels, flattenGroups]
  | cons group groups ih =>
      intro completed k ps res hready
      have hreadyG : ∀ name ∈ group.Services, DryReady sw env name := by
        intro n hn
        exact hready n (by rw [flattenGroups_cons]; exact List.mem_append.mpr (Or.inl hn))
      obtain ⟨h1, h2, h3⟩ := levelStep_dry sw env options hdr
        (options.Parallel && decide (1 < group.Services.length)) group.Services ps res hreadyG
      simp only [runLevels]
      cases hstep : (if (options.Parallel && decide (1 < group.Services.length)) = true then
            switchServicesParallel sw env options group.Services ps res
          else switchLevelSeq sw env options group.Services ps res) with
      | mk ps2 rest2 =>
          obtain ⟨res2, evs2, err2⟩ := rest2
          rw [hstep] at h1 h2 h3
          dsimp only at h1 h2 h3
          subst h1
          dsimp only
          obtain ⟨ih1, ih2, ih3⟩ := ih (completed + group.Services.length) (k + 1) ps2 res2
            (fun n hn => hready n
              (by rw [flattenGroups_cons]; exact List.mem_append.mpr (Or.inr hn)))
          cases hrec : runLevels sw env options hasCallback startTime clock total groups
              (completed + group.Services.length) (k + 1) ps2 res2 with
          | mk ps3 rest3 =>
              obtain ⟨res3, evs3, snaps3, r3⟩ := rest3
              rw [hrec] at ih1 ih2 ih3
              dsimp only at ih1 ih2 ih3 ⊢
              refine ⟨ih1, ?_, ?_⟩
              · rw [ih2, h2]
                simp [flattenGroups_cons]
              · rw [ih3, h3]
                simp [flattenGroups_cons]

/-- C6 counterexample: a dry run over a resolvable environment whose single
service has no registered switcher reaches the level-execution phase but
aborts before any `GetCurrentState` call: the trace contains no `getState`
event for the scheduled service "aws", contradicting the claim that
`GetCurrentState` is still invoked for every scheduled service. -/
theorem c6_counterexample :
    GetParallelGroups (envAws.Services.map (·.1)) envAws.Dependencies =
      .ok [⟨["aws"], 0⟩] ∧
    ({ DryRun := true } : SwitchOptions).DryRun = true ∧
    (@SwitchEnvironment Unit [] noShell false 0 zeroClock envAws
        { DryRun := true }).err = some "no switcher registered for service: aws" ∧
    ¬ SwitchEvent.getState "aws" ∈
      (@SwitchEnvironment Unit [] noShell false 0 zeroClock envAws
        { DryRun := true }).trace := by
  exact ⟨by decide, rfl, by decide, by decide⟩

/-- C6 amended: for a dry run in which every scheduled service is
dry-ready (registered switcher, configuration entry present, state capture
succeeds, known service type) and validation, resolution and the pre-hooks
pass, no `Switch` is ever invoked, `GetCurrentState` is invoked for every
scheduled service, the run returns no terminal error, and the result lists
every scheduled service in `SwitchedServices` in schedule order. -/
theorem c6_amended_dry_run {σ : Type} (sw : List (String × ServiceSwitcher σ))
    (shell : String → Option String) (hasCallback : Bool) (startTime : ℚ)
    (clock : Nat → ℚ) (env : Environment) (options : SwitchOptions)
    (groups : List ServiceGroup) (evsP : List (SwitchEvent σ))
    (hdr : options.DryRun = true)
    (hv : env.Validate = none)
    (hg : GetParallelGroups (env.Services.map (·.1)) env.Dependencies = .ok groups)
    (hpre : @executeHooksLoop σ shell "pre-hook" 0 env.PreHooks = (evsP, none))
    (hready : ∀ name ∈ flattenGroups groups, DryReady sw env name) :
    (SwitchEnvironment sw shell hasCallback startTime clock env options).err = none ∧
    (∃ res, (SwitchEnvironment sw shell hasCallback startTime clock env options).result =
        some res ∧ res.SwitchedServices = flattenGroups groups) ∧
    (∀ ev ∈ (SwitchEnvironment sw shell hasCallback startTime clock env options).trace,
      isSwitchCallEvent ev = false) ∧
    (∀ name ∈ flattenGroups groups, SwitchEvent.getState name ∈
      (SwitchEnvironment sw shell hasCallback startTime clock env options).trace) := by
  have hPreEv : ∀ ev ∈ evsP, isSwitchCallEvent ev = false := by
    intro ev hev
    have := @executeHooksLoop_events σ shell "pre-hook" 0 env.PreHooks
    rw [hpre] at this
    exact isSwitchCall_false_of_no_service ev (this ev hev).1
  unfold SwitchEnvironment
  rw [hv]
  dsimp only
  rw [hg]
  dsimp only
  rw [hpre]
  dsimp only
  obtain ⟨h1, h2, h3⟩ := runLevels_dry sw env options hasCallback startTime clock
    env.Services.length hdr groups 0 0 []
    { Success := true, SwitchedServices := [], FailedServices := [], Errors := [] } hready
  cases hrunv : runLevels sw env options hasCallback startTime clock
      env.Services.length groups 0 0 []
      { Success := true, SwitchedServices := [], FailedServices := [], Errors := [] } with
  | mk ps rest =>
      obtain ⟨res, evs2, snaps, r⟩ := rest
      rw [hrunv] at h1 h2 h3
      dsimp only at h1 h2 h3
      subst h1
      dsimp only
      have hres : res.SwitchedServices = flattenGroups groups := by
        rw [h2]
        simp
      have hevs2 : evs2 = (flattenGroups groups).map SwitchEvent.getState := h3
      cases hpost : @executeHooksLoop σ shell "post-hook" 0 env.PostHooks with
      | mk evsQ rQ =>
          have hPostEv : ∀ ev ∈ evsQ, isSwitchCallEvent ev = false := by
            intro ev hev
            have := @executeHooksLoop_events σ shell "post-hook" 0 env.PostHooks
            rw [hpost] at this
            exact isSwitchCall_false_of_no_service ev (this ev hev).1
          have htr : ∀ ev ∈ evsP ++ evs2 ++ evsQ, isSwitchCallEvent ev = false := by
            intro ev hev
            rcases List.mem_append.mp hev with h | h
            · rcases List.mem_append.mp h with h0 | h0
              · exact hPreEv ev h0
              · rw [hevs2] at h0
                simp only [List.mem_map] at h0
                obtain ⟨n, _, hne⟩ := h0
                rw [← hne]
                rfl
            · exact hPostEv ev h
          have hget : ∀ name ∈ flattenGroups groups,
              SwitchEvent.getState name ∈ evsP ++ evs2 ++ evsQ := by
            intro name hn
            refine List.mem_append.mpr (Or.inl (List.mem_append.mpr (Or.inr ?_)))
            rw [hevs2]
            exact List.mem_map.mpr ⟨name, hn, rfl⟩
          cases rQ with
          | some e1 =>
              dsimp only
              exact ⟨rfl, ⟨_, rfl, hres⟩, htr, hget⟩
          | none =>
              dsimp only
              exact ⟨rfl, ⟨_, rfl, hres⟩, htr, hget⟩

theorem c6_amended_witness :
    ({ DryRun := true } : SwitchOptions).DryRun = true ∧
    envAws.Validate = none ∧
    GetParallelGroups (envAws.Services.map (·.1)) envAws.Dependencies =
      .ok [⟨["aws"], 0⟩] ∧
    @executeHooksLoop Unit noShell "pre-hook" 0 envAws.PreHooks = ([], none) ∧
    ((SwitchEnvironment [("aws", okSwitcher)] noShell false 0 zeroClock envAws
        { DryRun := true }).err = none ∧
    (∃ res, (SwitchEnvironment [("aws", okSwitcher)] noShell false 0 zeroClock envAws
        { DryRun := true }).result = some res ∧
      res.SwitchedServices = flattenGroups [⟨["aws"], 0⟩]) ∧
    (∀ ev ∈ (SwitchEnvironment [("aws", okSwitcher)] noShell false 0 zeroClock envAws
        { DryRun := true }).trace, isSwitchCallEvent ev = false) ∧
    (∀ name ∈ flattenGroups [⟨["aws"], 0⟩], SwitchEvent.getState name ∈
      (SwitchEnvironment [("aws", okSwitcher)] noShell false 0 zeroClock envAws
        { DryRun := true }).trace)) := by
  refine ⟨rfl, by decide, by decide, rfl, ?_⟩
  exact c6_amended_dry_run [("aws", okSwitcher)] noShell false 0 zeroClock envAws
    { DryRun := true } [⟨["aws"], 0⟩] [] rfl (by decide) (by decide) rfl
    (by
      intro name hn
      rw [show flattenGroups [⟨["aws"], 0⟩] = ["aws"] from rfl] at hn
      simp only [List.mem_singleton] at hn
      subst hn
      exact ⟨okSwitcher, awsCfg, (), rfl, rfl, rfl, by decide⟩)

lemma getParallelGroups_ok_nonempty (services deps : List String)
    (groups : List ServiceGroup) (hnd : services.Nodup)
    (hok : GetParallelGroups services deps = .ok groups) :
    ∀ g ∈ groups, g.Services ≠ [] := by
  unfold GetParallelGroups ResolveDependencies at hok
  cases hb : buildEdges services deps with
  | error e => rw [hb] at hok; cases hok
  | ok edges =>
      rw [hb] at hok
      dsimp only at hok
      cases hd : detectCycles services edges with
      | error e => rw [hd] at hok; cases hok
      | ok u =>
          rw [hd] at hok
          dsimp only at hok
          unfold topologicalSort at hok
          have hknd : (keysOf (initRemaining services edges)).Nodup := by
            rw [keysOf_initRemaining]
            exact hnd
          obtain ⟨gs, hgs, _, _, hne⟩ := topoLoop_ok_props edges
            (initRemaining services edges).length (initRemaining services edges) 0 [] groups
            hok hknd
          rw [hgs]
          simpa using hne

lemma runLevels_snaps {σ : Type} (sw : List (String × ServiceSwitcher σ))
    (env : Environment) (options : SwitchOptions) (hasCallback : Bool) (startTime : ℚ)
    (clock : Nat → ℚ) (total : Nat) :
    ∀ (groups : List ServiceGroup) (completed k : Nat) (ps : List (String × σ))
      (res : SwitchResult),
      (∀ g ∈ groups, g.Services ≠ []) →
      ∀ p ∈ (runLevels sw env options hasCallback startTime clock total groups
          completed k ps res).2.2.2.1,
        completed + 1 ≤ p.CompletedServices ∧
        p.StartTime = startTime ∧
        p.TotalServices = total ∧
        ∃ j, p.EstimatedEnd =
          startTime + clock j * (total : ℚ) / (p.CompletedServices : ℚ) := by
  intro groups
  induction groups with
  | nil =>
      intro completed k ps res _ p hp
      simp [runLevels] at hp
  | cons group groups ih =>
      intro completed k ps res hne p hp
      simp only [runLevels] at hp
      cases hstep : (if (options.Parallel && decide (1 < group.Services.length)) = true then
            switchServicesParallel sw env options group.Services ps res
          else switchLevelSeq sw env options group.Services ps res) with
      | mk psA restA =>
          obtain ⟨resA, evsA, errA⟩ := restA
          rw [hstep] at hp
          cases errA with
          | some e =>
              dsimp only at hp
              by_cases hrb0 : options.RollbackOnError = true
              · rw [if_pos hrb0] at hp
                cases hrbk : rollbackServices sw psA resA with
                | mk resB revs =>
                    rw [hrbk] at hp
                    simp at hp
              · rw [if_neg hrb0] at hp
                simp at hp
          | none =>
              dsimp only at hp
              cases hrec : runLevels sw env options hasCallback startTime clock total groups
                  (completed + group.Services.length) (k + 1) psA resA with
              | mk ps3 rest3 =>
                  obtain ⟨res3, evs3, snaps3, r3⟩ := rest3
                  rw [hrec] at hp
                  dsimp only at hp
                  have hlen : 1 ≤ group.Services.length := by
                    have := hne group (by simp)
                    cases hserv : group.Services with
                    | nil => exact absurd hserv this
                    | cons a l => simp [hserv]
                  rcases List.mem_append.mp hp with h | h
                  · cases hcb : hasCallback with
                    | false => rw [hcb] at h; simp at h
                    | true =>
                        rw [hcb] at h
                        simp only [if_true, List.mem_singleton] at h
                        subst h
                        refine ⟨by dsimp only; omega, rfl, rfl, k, rfl⟩
                  · have := ih (completed + group.Services.length) (k + 1) psA resA
                      (fun g hg => hne g (List.mem_cons_of_mem _ hg)) p
                    rw [hrec] at this
                    obtain ⟨h1, h2, h3, h4⟩ := this h
                    exact ⟨by omega, h2, h3, h4⟩

/-- C9: every progress snapshot a run emits has `CompletedServices ≥ 1`
(levels produced by the resolver are never empty and a snapshot is emitted
only after a completed level), so the estimated-completion computation
never divides by zero, and `EstimatedEnd` is the start time plus the
elapsed time scaled by `TotalServices / CompletedServices`. -/
theorem c9_snapshot_invariant {σ : Type} (sw : List (String × ServiceSwitcher σ))
    (shell : String → Option String) (hasCallback : Bool) (startTime : ℚ)
    (clock : Nat → ℚ) (env : Environment) (options : SwitchOptions)
    (hnd : (env.Services.map (·.1)).Nodup) :
    ∀ p ∈ (SwitchEnvironment sw shell hasCallback startTime clock env options).snapshots,
      1 ≤ p.CompletedServices ∧
      p.StartTime = startTime ∧
      p.TotalServices = env.Services.length ∧
      (p.CompletedServices : ℚ) ≠ 0 ∧
      ∃ elapsed : ℚ, p.EstimatedEnd =
        startTime + elapsed * (p.TotalServices : ℚ) / (p.CompletedServices : ℚ) := by
  unfold SwitchEnvironment
  cases hv : env.Validate with
  | some e => intro p hp; simp at hp
  | none =>
      dsimp only
      cases hg : GetParallelGroups (env.Services.map (·.1)) env.Dependencies with
      | error e => intro p hp; simp at hp
      | ok groups =>
          dsimp only
          have hne := getParallelGroups_ok_nonempty (env.Services.map (·.1))
            env.Dependencies groups hnd hg
          cases hpre0 : @executeHooksLoop σ shell "pre-hook" 0 env.PreHooks with
          | mk evsP rP =>
              cases rP with
              | some e => intro p hp; simp at hp
              | none =>
                  dsimp only
                  have hsn := runLevels_snaps sw env options hasCallback startTime clock
                    env.Services.length groups 0 0 []
                    { Success := true, SwitchedServices := [], FailedServices := [],
                      Errors := [] } hne
                  cases hrunv : runLevels sw env options hasCallback startTime clock
                      env.Services.length groups 0 0 []
                      { Success := true, SwitchedServices := [], FailedServices := [],
                        Errors := [] } with
                  | mk ps rest =>
                      obtain ⟨res, evs2, snaps, r⟩ := rest
                      rw [hrunv] at hsn
                      dsimp only at hsn
                      have hout : ∀ p ∈ snaps,
                          1 ≤ p.CompletedServices ∧
                          p.StartTime = startTime ∧
                          p.TotalServices = env.Services.length ∧
                          (p.CompletedServices : ℚ) ≠ 0 ∧
                          ∃ elapsed : ℚ, p.EstimatedEnd =
                            startTime + elapsed * (p.TotalServices : ℚ) /
                              (p.CompletedServices : ℚ) := by
                        intro p hp
                        obtain ⟨h1, h2, h3, j, h4⟩ := hsn p hp
                        refine ⟨h1, h2, h3, ?_, clock j, ?_⟩
                        · have : (0 : Nat) < p.CompletedServices := h1
                          exact_mod_cast Nat.pos_iff_ne_zero.mp this
                        · rw [h3]
                          exact h4
                      cases r with
                      | some e => exact hout
                      | none =>
                          cases hpost : @executeHooksLoop σ shell "post-hook" 0
                              env.PostHooks with
                          | mk evsQ rQ =>
                              cases rQ with
                              | some e1 => exact hout
                              | none => exact hout

theorem c9_snapshot_invariant_witness :
    ((envAws.Services.map (·.1)).Nodup ∧
      ∀ p ∈ (SwitchEnvironment [("aws", okSwitcher)] noShell true 0 zeroClock envAws
          {}).snapshots,
        1 ≤ p.CompletedServices ∧
        p.StartTime = 0 ∧
        p.TotalServices = envAws.Services.length ∧
        (p.CompletedServices : ℚ) ≠ 0 ∧
        ∃ elapsed : ℚ, p.EstimatedEnd =
          0 + elapsed * (p.TotalServices : ℚ) / (p.CompletedServices : ℚ)) := by
  exact ⟨by decide,
    c9_snapshot_invariant [("aws", okSwitcher)] noShell true 0 zeroClock envAws {}
      (by decide)⟩

end GzhEnv
